import Mathlib

/-!
# Verification of the YouTube-summarizer chunking / summarization pipeline

Shallow embedding of `src/backend/app/services/summarizer.py`
(`SummarizerService`): the text splitter (`_split_into_chunks`,
`_find_split_position`), the response parser (`_parse_summary_response`),
and the orchestrator (`summarize_transcript`, `_summarize_short`,
`_summarize_long`).

Text is modelled as `List Char` (Python strings are sequences of Unicode
code points, and all slicing in the source is character based).  The
`while` loop of `_split_into_chunks` is modelled with explicit fuel; a
`none` result means the fuel ran out (the loop has not terminated yet).
-/

namespace Summarizer

/-- The model identifier constant `MODEL_ID` from the source. -/
def MODEL_ID : String := "llama-3.3-70b-versatile"

/-- Python slice `text[a:b]` on a character list (clamping semantics). -/
def sliceL (text : List Char) (a b : Nat) : List Char :=
  (text.drop a).take (b - a)

/-- Greatest `i < n` with `P i = true` (`none` if there is none).
Used to model Python's `str.rfind`. -/
def maxSat (P : Nat → Bool) : Nat → Option Nat
  | 0 => none
  | n + 1 => if P n then some n else maxSat P n

/-- `pat` occurs in `seg` starting at index `i` (as a Bool). -/
def occursAtB (seg pat : List Char) (i : Nat) : Bool :=
  decide (i + pat.length ≤ seg.length) && ((seg.drop i).take pat.length == pat)

/-- `pat` occurs in `seg` starting at index `i`. -/
def OccursAt (seg pat : List Char) (i : Nat) : Prop :=
  i + pat.length ≤ seg.length ∧ (seg.drop i).take pat.length = pat

/-- Python `segment.rfind(delimiter)`: index of the rightmost occurrence of
`pat` in `seg`, `none` when `pat` does not occur. -/
def rfind (seg pat : List Char) : Option Nat :=
  maxSat (occursAtB seg pat) (seg.length + 1 - pat.length)

/-- The delimiter preference list of `_find_split_position`:
`["。", "\n\n", "\n", "、", ".", " "]`. -/
def delims : List (List Char) :=
  [['。'], ['\n', '\n'], ['\n'], ['、'], ['.'], [' ']]

/-- The `for delimiter in [...]` loop of `_find_split_position`: try each
delimiter in order; on the first whose `rfind` succeeds at position `pos`,
return `search_start + pos + len(delimiter)`. -/
def tryDelims (seg : List Char) (searchStart : Nat) : List (List Char) → Option Nat
  | [] => none
  | d :: ds =>
    match rfind seg d with
    | some pos => some (searchStart + pos + d.length)
    | none => tryDelims seg searchStart ds

/-- `SummarizerService._find_split_position(text, start, end)`. -/
def findSplitPosition (text : List Char) (start e : Nat) : Nat :=
  let searchStart := max start (e - (e - start) / 5)
  let segment := sliceL text searchStart e
  match tryDelims segment searchStart delims with
  | some p => p
  | none => e

/-- The `while start < len(text)` loop of `_split_into_chunks`, with fuel.
`none` means the fuel was exhausted before the loop finished. -/
def splitChunksGo (text : List Char) (cs ov : Nat) :
    Nat → Nat → List (List Char) → Option (List (List Char))
  | 0, _, _ => none
  | fuel + 1, start, acc =>
    if start < text.length then
      let e := start + cs
      if text.length ≤ e then
        some (acc ++ [text.drop start])
      else
        let sp := findSplitPosition text start e
        splitChunksGo text cs ov fuel (sp - ov) (acc ++ [sliceL text start sp])
    else
      some acc

/-- A produced chunk: `ChunkInfo` dataclass from the source. -/
structure ChunkInfo where
  text : List Char
  part_number : Nat
  total_parts : Nat
  deriving Repr, DecidableEq

/-- The final list comprehension of `_split_into_chunks`: number the chunks
`1..total`. -/
def numberChunks (total : Nat) : Nat → List (List Char) → List ChunkInfo
  | _, [] => []
  | i, c :: rest => ⟨c, i, total⟩ :: numberChunks total (i + 1) rest

/-- `SummarizerService._split_into_chunks(text)` with chunk size `cs`,
overlap `ov` and explicit loop fuel. -/
def splitIntoChunks (text : List Char) (cs ov fuel : Nat) : Option (List ChunkInfo) :=
  if text.length ≤ cs then
    some [⟨text, 1, 1⟩]
  else
    (splitChunksGo text cs ov fuel 0 []).map
      (fun cks => numberChunks cks.length 1 cks)

/-- The split loop terminates on `text` for configuration `(cs, ov)`. -/
def SplitTerminates (text : List Char) (cs ov : Nat) : Prop :=
  ∃ fuel chunks, splitIntoChunks text cs ov fuel = some chunks

example : rfind "ab ab".toList [' '] = some 2 := by decide
example : rfind "abab".toList ['。'] = none := by decide
example : findSplitPosition "aaaaaaaa。baaaa".toList 0 10 = 9 := by decide
example :
    splitIntoChunks "aaaaaaaaaaaaaaa".toList 10 2 5 =
      some [⟨"aaaaaaaaaa".toList, 1, 2⟩, ⟨"aaaaaaa".toList, 2, 2⟩] := by decide

/-! ### Basic facts about `maxSat`, `rfind` and `tryDelims` -/

theorem maxSat_some {P : Nat → Bool} {n i : Nat} (h : maxSat P n = some i) :
    P i = true ∧ i < n := by
  induction n with
  | zero => simp [maxSat] at h
  | succ m ih =>
    by_cases hm : P m = true
    · simp [maxSat, hm] at h
      subst h; exact ⟨hm, Nat.lt_succ_self m⟩
    · simp [maxSat, hm] at h
      obtain ⟨h1, h2⟩ := ih h
      exact ⟨h1, Nat.lt_succ_of_lt h2⟩

theorem maxSat_max {P : Nat → Bool} {n i : Nat} (h : maxSat P n = some i) :
    ∀ j, i < j → j < n → P j = false := by
  induction n with
  | zero => simp [maxSat] at h
  | succ m ih =>
    intro j hij hjn
    by_cases hm : P m = true
    · simp [maxSat, hm] at h
      subst h; omega
    · simp [maxSat, hm] at h
      rcases Nat.lt_succ_iff_lt_or_eq.mp hjn with hj | hj
      · exact ih h j hij hj
      · subst hj; exact Bool.eq_false_iff.mpr hm

theorem maxSat_none {P : Nat → Bool} {n : Nat} (h : maxSat P n = none) :
    ∀ i, i < n → P i = false := by
  induction n with
  | zero => omega
  | succ m ih =>
    intro i hi
    by_cases hm : P m = true
    · simp [maxSat, hm] at h
    · simp [maxSat, hm] at h
      rcases Nat.lt_succ_iff_lt_or_eq.mp hi with hj | hj
      · exact ih h i hj
      · subst hj; exact Bool.eq_false_iff.mpr hm

theorem occursAtB_iff {seg pat : List Char} {i : Nat} :
    occursAtB seg pat i = true ↔ OccursAt seg pat i := by
  unfold occursAtB OccursAt
  simp [Bool.and_eq_true, beq_iff_eq]

theorem rfind_some {seg pat : List Char} {i : Nat} (h : rfind seg pat = some i) :
    OccursAt seg pat i := by
  exact occursAtB_iff.mp (maxSat_some h).1

theorem rfind_max {seg pat : List Char} {i : Nat} (hpat : pat ≠ [])
    (h : rfind seg pat = some i) : ∀ j, i < j → ¬OccursAt seg pat j := by
  intro j hij hocc
  have hb : occursAtB seg pat j = true := occursAtB_iff.mpr hocc
  have hjn : j < seg.length + 1 - pat.length := by
    have := hocc.1
    have hp : 0 < pat.length := List.length_pos.mpr hpat
    omega
  have := maxSat_max h j hij hjn
  rw [this] at hb; exact Bool.noConfusion hb

theorem rfind_none {seg pat : List Char} (hpat : pat ≠ [])
    (h : rfind seg pat = none) : ∀ i, ¬OccursAt seg pat i := by
  intro i hocc
  have hb : occursAtB seg pat i = true := occursAtB_iff.mpr hocc
  have hin : i < seg.length + 1 - pat.length := by
    have := hocc.1
    have hp : 0 < pat.length := List.length_pos.mpr hpat
    omega
  have := maxSat_none h i hin
  rw [this] at hb; exact Bool.noConfusion hb

/-- Every delimiter in the source's preference list is nonempty and has
length at most 2. -/
theorem delims_lengths : ∀ d ∈ delims, d ≠ [] ∧ d.length ≤ 2 := by decide

theorem tryDelims_some_bounds {seg : List Char} {z : Nat} {ds : List (List Char)}
    {p : Nat} (hds : ∀ d ∈ ds, d ≠ []) (h : tryDelims seg z ds = some p) :
    z < p ∧ p ≤ z + seg.length := by
  induction ds with
  | nil => simp [tryDelims] at h
  | cons d rest ih =>
    unfold tryDelims at h
    cases hr : rfind seg d with
    | some pos =>
      rw [hr] at h
      have hocc := rfind_some hr
      have hd : d ≠ [] := hds d (List.mem_cons_self d rest)
      have hlen : 0 < d.length := List.length_pos.mpr hd
      have hle := hocc.1
      simp at h
      omega
    | none =>
      rw [hr] at h
      exact ih (fun d' hd' => hds d' (List.mem_cons_of_mem d hd')) h

theorem length_sliceL (text : List Char) (a b : Nat) :
    (sliceL text a b).length = min (b - a) (text.length - a) := by
  simp [sliceL]

/-- `_find_split_position` on a window `[s, s+cs)`, written without the
intermediate `let` bindings: the search zone starts at `s + (cs - cs/5)`. -/
theorem findSplitPosition_eq (text : List Char) (s cs : Nat) :
    findSplitPosition text s (s + cs) =
      match tryDelims (sliceL text (s + (cs - cs / 5)) (s + cs)) (s + (cs - cs / 5)) delims with
      | some p => p
      | none => s + cs := by
  unfold findSplitPosition
  have hds : (s + cs) - s = cs := by omega
  have hz : max s ((s + cs) - ((s + cs) - s) / 5) = s + (cs - cs / 5) := by
    rw [hds]
    have : cs / 5 ≤ cs := Nat.div_le_self cs 5
    omega
  rw [hz]

/-- Bounds on the split position of a non-final window: strictly inside the
last fifth of the window, or at the window edge. -/
theorem findSplitPosition_bounds (text : List Char) (s cs : Nat) :
    s + (cs - cs / 5) < findSplitPosition text s (s + cs) ∨
      findSplitPosition text s (s + cs) = s + cs := by
  rw [findSplitPosition_eq]
  cases htd : tryDelims (sliceL text (s + (cs - cs / 5)) (s + cs)) (s + (cs - cs / 5)) delims with
  | some p =>
    left
    have hb := tryDelims_some_bounds (fun d hd => (delims_lengths d hd).1) htd
    exact hb.1
  | none => right; rfl

theorem findSplitPosition_le (text : List Char) (s cs : Nat) :
    findSplitPosition text s (s + cs) ≤ s + cs := by
  rw [findSplitPosition_eq]
  cases htd : tryDelims (sliceL text (s + (cs - cs / 5)) (s + cs)) (s + (cs - cs / 5)) delims with
  | some p =>
    show p ≤ s + cs
    have hb := tryDelims_some_bounds (fun d hd => (delims_lengths d hd).1) htd
    have hsl := length_sliceL text (s + (cs - cs / 5)) (s + cs)
    have : cs / 5 ≤ cs := Nat.div_le_self cs 5
    omega
  | none => exact Nat.le_refl _

theorem findSplitPosition_gt (text : List Char) (s cs : Nat) (hcs : 0 < cs) :
    s < findSplitPosition text s (s + cs) := by
  rcases findSplitPosition_bounds text s cs with h | h
  · omega
  · omega

/-- One unfolding of the split loop at positive fuel. -/
theorem splitChunksGo_succ (text : List Char) (cs ov fuel start : Nat)
    (acc : List (List Char)) :
    splitChunksGo text cs ov (fuel + 1) start acc =
      if start < text.length then
        if text.length ≤ start + cs then some (acc ++ [text.drop start])
        else
          splitChunksGo text cs ov fuel
            (findSplitPosition text start (start + cs) - ov)
            (acc ++ [sliceL text start (findSplitPosition text start (start + cs))])
      else some acc := rfl

/-! ### C3: termination of the split loop -/

/-- C3 counterexample text: 14 characters with a `。` at index 8.  With
`chunk_size = 10` and `overlap = 9` the split position of the first window
is 9, so the cursor moves to `9 - 9 = 0` forever. -/
def ctext3 : List Char := "aaaaaaaa。baaaa".toList

theorem ctext3_stuck : ∀ fuel acc, splitChunksGo ctext3 10 9 fuel 0 acc = none := by
  intro fuel
  induction fuel with
  | zero => intro acc; rfl
  | succ n ih =>
    intro acc
    have hstep : splitChunksGo ctext3 10 9 (n + 1) 0 acc =
        splitChunksGo ctext3 10 9 n 0 (acc ++ [sliceL ctext3 0 9]) := rfl
    rw [hstep]
    exact ih _

/-- C3 counterexample: with `max_chunk_size = 10 > 0` and
`0 ≤ overlap = 9 < 10` — a configuration satisfying the split contract's
preconditions — the cursor-advancing loop of `_split_into_chunks` never
terminates on the 14-character text `"aaaaaaaa。baaaa"`: the cut falls
right after the `。` at index 8, and `split_position − overlap = 0` resets
the cursor to its initial value on every iteration. -/
theorem C3_counterexample : SplitTerminates ctext3 10 9 = False := by
  apply eq_false
  rintro ⟨fuel, chunks, h⟩
  have hne : ¬ctext3.length ≤ 10 := by decide
  unfold splitIntoChunks at h
  rw [if_neg hne, ctext3_stuck fuel []] at h
  simp at h

theorem splitChunksGo_terminates (text : List Char) (cs ov : Nat)
    (hov : ov + cs / 5 < cs) :
    ∀ n start acc, text.length - start ≤ n →
      ∃ out, splitChunksGo text cs ov (n + 1) start acc = some out := by
  intro n
  induction n with
  | zero =>
    intro start acc h
    refine ⟨acc, ?_⟩
    rw [splitChunksGo_succ, if_neg (by omega)]
  | succ m ih =>
    intro start acc h
    by_cases hlt : start < text.length
    · by_cases hend : text.length ≤ start + cs
      · exact ⟨acc ++ [text.drop start], by
          rw [splitChunksGo_succ, if_pos hlt, if_pos hend]⟩
      · have hdiv : cs / 5 ≤ cs := Nat.div_le_self cs 5
        have hprog : start < findSplitPosition text start (start + cs) - ov := by
          rcases findSplitPosition_bounds text start cs with h1 | h1
          · omega
          · omega
        obtain ⟨out, hout⟩ :=
          ih (findSplitPosition text start (start + cs) - ov)
            (acc ++ [sliceL text start (findSplitPosition text start (start + cs))])
            (by omega)
        exact ⟨out, by rw [splitChunksGo_succ, if_pos hlt, if_neg hend]; exact hout⟩
    · exact ⟨acc, by rw [splitChunksGo_succ, if_neg hlt]⟩

/-- C3 (amended): for every text and every configuration with
`max_chunk_size > 0` and `overlap + max_chunk_size/5 < max_chunk_size`
(strengthening the contract's `overlap < max_chunk_size`; it covers the
source's default configuration 500/8000), the cursor-advancing loop always
reaches the end of the text after finitely many iterations and returns a
finite sequence of chunks. -/
theorem C3_split_terminates (text : List Char) (cs ov : Nat) (hcs : 0 < cs)
    (hov : ov + cs / 5 < cs) : SplitTerminates text cs ov := by
  by_cases hshort : text.length ≤ cs
  · exact ⟨0, [⟨text, 1, 1⟩], by unfold splitIntoChunks; rw [if_pos hshort]⟩
  · obtain ⟨out, hout⟩ :=
      splitChunksGo_terminates text cs ov hov text.length 0 [] (by omega)
    refine ⟨text.length + 1, numberChunks out.length 1 out, ?_⟩
    unfold splitIntoChunks
    rw [if_neg hshort]
    have : text.length - 1 + 1 = text.length := by
      have : cs < text.length := by omega
      omega
    rw [hout]
    rfl

/-- Witness for `C3_split_terminates`: the default-configuration-style
parameters `max_chunk_size = 10`, `overlap = 2` on a concrete text. -/
theorem C3_split_terminates_witness :
    (0 < 10 ∧ 2 + 10 / 5 < 10) ∧ SplitTerminates "hello world, again".toList 10 2 :=
  ⟨by decide, C3_split_terminates "hello world, again".toList 10 2 (by decide) (by decide)⟩

/-! ### Occurrences of a delimiter in a window of the text -/

/-- An occurrence inside the slice `text[z:e]` is exactly an occurrence in
`text` that starts at `z + i` and ends by `e`. -/
theorem occursAt_slice {text pat : List Char} {z e i : Nat}
    (hz : z ≤ e) (he : e ≤ text.length) :
    OccursAt (sliceL text z e) pat i ↔
      z + i + pat.length ≤ e ∧ (text.drop (z + i)).take pat.length = pat := by
  have hlen : (sliceL text z e).length = e - z := by
    rw [length_sliceL]; omega
  have hdropi : (sliceL text z e).drop i = (text.drop (z + i)).take (e - z - i) := by
    unfold sliceL
    rw [List.drop_take, List.drop_drop]
  constructor
  · rintro ⟨h1, h2⟩
    rw [hlen] at h1
    refine ⟨by omega, ?_⟩
    rw [hdropi, List.take_take] at h2
    have hmin : min pat.length (e - z - i) = pat.length := by omega
    rwa [hmin] at h2
  · rintro ⟨h1, h2⟩
    refine ⟨by omega, ?_⟩
    rw [hdropi, List.take_take]
    have hmin : min pat.length (e - z - i) = pat.length := by omega
    rwa [hmin]

/-- If `tryDelims` falls through, no delimiter in the list occurs in the
segment. -/
theorem tryDelims_none {seg : List Char} {z : Nat} {ds : List (List Char)}
    (h : tryDelims seg z ds = none) : ∀ d ∈ ds, rfind seg d = none := by
  induction ds with
  | nil => intro d hd; simp at hd
  | cons d0 rest ih =>
    intro d hd
    unfold tryDelims at h
    cases hr : rfind seg d0 with
    | some pos => rw [hr] at h; exact Option.noConfusion h
    | none =>
      rw [hr] at h
      rcases List.mem_cons.mp hd with hd | hd
      · subst hd; exact hr
      · exact ih h d hd

/-- If `tryDelims` returns `some p`, there is a first delimiter (index `k`)
whose `rfind` succeeded, and `p` is `z + pos + len(delimiter)`. -/
theorem tryDelims_some {seg : List Char} {z : Nat} {ds : List (List Char)} {p : Nat}
    (h : tryDelims seg z ds = some p) :
    ∃ k pos, k < ds.length ∧
      rfind seg (ds.getD k []) = some pos ∧
      p = z + pos + (ds.getD k []).length ∧
      ∀ j < k, rfind seg (ds.getD j []) = none := by
  induction ds with
  | nil => simp [tryDelims] at h
  | cons d0 rest ih =>
    unfold tryDelims at h
    cases hr : rfind seg d0 with
    | some pos =>
      rw [hr] at h
      refine ⟨0, pos, by simp, by simpa using hr, ?_, by omega⟩
      simp at h
      simpa using h.symm
    | none =>
      rw [hr] at h
      obtain ⟨k, pos, hk, hfind, hp, hprev⟩ := ih h
      refine ⟨k + 1, pos, by simpa using hk, by simpa using hfind, by simpa using hp, ?_⟩
      intro j hj
      cases j with
      | zero => simpa using hr
      | succ j' =>
        have := hprev j' (by omega)
        simpa using this

/-- Facts about the `k`-th delimiter of the preference list. -/
theorem delims_getD_facts (k : Nat) (hk : k < delims.length) :
    delims.getD k [] ≠ [] ∧ (delims.getD k []).length ≤ 2 ∧ delims.getD k [] ∈ delims := by
  have h6 : k < 6 := by simpa [delims] using hk
  interval_cases k <;> decide

/-- If `rfind` fails on the search zone of the window at `x`, no absolute
occurrence of the delimiter lies inside that zone. -/
theorem no_occ_window {text d : List Char} {x cs q : Nat}
    (hd : d ≠ []) (hxe : x + cs ≤ text.length)
    (hnone : rfind (sliceL text (x + (cs - cs / 5)) (x + cs)) d = none)
    (hq1 : x + (cs - cs / 5) ≤ q) (hq2 : q + d.length ≤ x + cs)
    (hmatch : (text.drop q).take d.length = d) : False := by
  have hW : cs / 5 ≤ cs := Nat.div_le_self cs 5
  have hz : x + (cs - cs / 5) ≤ x + cs := by omega
  have hocc : OccursAt (sliceL text (x + (cs - cs / 5)) (x + cs)) d (q - (x + (cs - cs / 5))) := by
    rw [occursAt_slice hz hxe]
    refine ⟨by omega, ?_⟩
    have heq : x + (cs - cs / 5) + (q - (x + (cs - cs / 5))) = q := by omega
    rw [heq]; exact hmatch
  exact rfind_none hd hnone _ hocc

/-- An absolute occurrence inside the zone of the window at `x` lies at or
left of the occurrence reported by `rfind` (rightmost-match property). -/
theorem occ_le_rfind {text d : List Char} {x cs q pos : Nat}
    (hd : d ≠ []) (hxe : x + cs ≤ text.length)
    (hsome : rfind (sliceL text (x + (cs - cs / 5)) (x + cs)) d = some pos)
    (hq1 : x + (cs - cs / 5) ≤ q) (hq2 : q + d.length ≤ x + cs)
    (hmatch : (text.drop q).take d.length = d) :
    q ≤ x + (cs - cs / 5) + pos := by
  have hW : cs / 5 ≤ cs := Nat.div_le_self cs 5
  have hz : x + (cs - cs / 5) ≤ x + cs := by omega
  by_contra hcon
  have hocc : OccursAt (sliceL text (x + (cs - cs / 5)) (x + cs)) d (q - (x + (cs - cs / 5))) := by
    rw [occursAt_slice hz hxe]
    refine ⟨by omega, ?_⟩
    have heq : x + (cs - cs / 5) + (q - (x + (cs - cs / 5))) = q := by omega
    rw [heq]; exact hmatch
  exact rfind_max hd hsome _ (by omega) hocc

/-- The occurrence reported by `rfind` on the zone of the window at `x`, as
an absolute occurrence in `text`. -/
theorem rfind_window_abs {text d : List Char} {x cs pos : Nat}
    (hxe : x + cs ≤ text.length)
    (hsome : rfind (sliceL text (x + (cs - cs / 5)) (x + cs)) d = some pos) :
    x + (cs - cs / 5) + pos + d.length ≤ x + cs ∧
      (text.drop (x + (cs - cs / 5) + pos)).take d.length = d := by
  have hW : cs / 5 ≤ cs := Nat.div_le_self cs 5
  have hz : x + (cs - cs / 5) ≤ x + cs := by omega
  have := rfind_some hsome
  rw [occursAt_slice hz hxe] at this
  exact this

/-- Key step lemma: if the window at `p` is followed (without clamping) by
the window at `s = split(p) − overlap` with `s > p`, then the next split
position cannot move left: `split(s) ≥ split(p) = s + overlap`. -/
theorem step_mono (text : List Char) (cs ov p s : Nat)
    (hovcs : ov < cs)
    (hp : p + cs < text.length) (hs : s + cs < text.length)
    (hsp : findSplitPosition text p (p + cs) = s + ov)
    (hps : p < s) :
    s + ov ≤ findSplitPosition text s (s + cs) := by
  have hW : cs / 5 ≤ cs := Nat.div_le_self cs 5
  have hpe : p + cs ≤ text.length := le_of_lt hp
  have hse : s + cs ≤ text.length := le_of_lt hs
  rw [findSplitPosition_eq] at hsp ⊢
  cases htp : tryDelims (sliceL text (p + (cs - cs / 5)) (p + cs)) (p + (cs - cs / 5)) delims with
  | none =>
    rw [htp] at hsp
    have hpcs : p + cs = s + ov := hsp
    cases hts : tryDelims (sliceL text (s + (cs - cs / 5)) (s + cs)) (s + (cs - cs / 5)) delims with
    | none => show s + ov ≤ s + cs; omega
    | some q =>
      show s + ov ≤ q
      obtain ⟨k, pos, hk, hfind, hq, _⟩ := tryDelims_some hts
      obtain ⟨hdne, hdl2, hdmem⟩ := delims_getD_facts k hk
      obtain ⟨habs1, habs2⟩ := rfind_window_abs hse hfind
      by_contra hcon
      push_neg at hcon
      exact no_occ_window hdne hpe (tryDelims_none htp _ hdmem)
        (by omega) (by omega) habs2
  | some P' =>
    rw [htp] at hsp
    have hP : P' = s + ov := hsp
    obtain ⟨kp, posp, hkp, hfp, hPeq, hprevp⟩ := tryDelims_some htp
    obtain ⟨hpne, hpl2, hpmem⟩ := delims_getD_facts kp hkp
    obtain ⟨hpabs1, hpabs2⟩ := rfind_window_abs hpe hfp
    cases hts : tryDelims (sliceL text (s + (cs - cs / 5)) (s + cs)) (s + (cs - cs / 5)) delims with
    | none => show s + ov ≤ s + cs; omega
    | some q =>
      show s + ov ≤ q
      obtain ⟨ks, poss, hks, hfs, hqeq, hprevs⟩ := tryDelims_some hts
      obtain ⟨hsne, hsl2, hsmem⟩ := delims_getD_facts ks hks
      obtain ⟨hsabs1, hsabs2⟩ := rfind_window_abs hse hfs
      rcases Nat.lt_trichotomy ks kp with hlt | heq | hgt
      · -- the delimiter chosen at `s` has higher priority: it cannot occur in
        -- the window at `p`, so it must end past `p + cs ≥ split(p)`.
        by_contra hcon
        push_neg at hcon
        exact no_occ_window hsne hpe (hprevp ks hlt) (by omega) (by omega) hsabs2
      · -- same delimiter: either the occurrence that ended the window at `p`
        -- is visible in the zone at `s` (then rightmost-match wins), or every
        -- occurrence in the zone at `s` starts right of it.
        subst heq
        by_cases hA : s + (cs - cs / 5) ≤ p + (cs - cs / 5) + posp
        · have hle := occ_le_rfind hsne hse hfs hA (by omega) hpabs2
          omega
        · by_contra hcon
          push_neg at hcon
          have hble := occ_le_rfind hsne hpe hfp (by omega) (by omega) hsabs2
          omega
      · -- the delimiter chosen at `p` has higher priority than the one chosen
        -- at `s`, so it cannot occur in the zone at `s`; hence its occurrence
        -- lies left of the zone at `s`, forcing `overlap ≤ (cs - cs/5) + 1`.
        have hnos := hprevs kp hgt
        by_cases hA : s + (cs - cs / 5) ≤ p + (cs - cs / 5) + posp
        · exact absurd (no_occ_window hpne hse hnos hA (by omega) hpabs2) not_false
        · have hLs : 1 ≤ (delims.getD ks []).length := List.length_pos.mpr hsne
          omega

/-! ### Traces of terminating runs of the split loop -/

/-- The trace of a terminating run of the `while` loop from cursor `s`: the
list of `(start, end)` index pairs of the produced chunks.  `final` is the
`end >= len(text)` break; `step` is one full iteration. -/
inductive Run (text : List Char) (cs ov : Nat) : Nat → List (Nat × Nat) → Prop
  | final (s : Nat) (h1 : s < text.length) (h2 : text.length ≤ s + cs) :
      Run text cs ov s [(s, text.length)]
  | step (s : Nat) (ps : List (Nat × Nat)) (h1 : s < text.length)
      (h2 : ¬text.length ≤ s + cs)
      (h3 : Run text cs ov (findSplitPosition text s (s + cs) - ov) ps) :
      Run text cs ov s ((s, findSplitPosition text s (s + cs)) :: ps)

/-- Slices of the text named by a trace. -/
def slicesOf (text : List Char) (ps : List (Nat × Nat)) : List (List Char) :=
  ps.map fun pr => sliceL text pr.1 pr.2

theorem sliceL_to_end {text : List Char} {s e : Nat} (h : text.length ≤ e) :
    sliceL text s e = text.drop s := by
  unfold sliceL
  exact List.take_of_length_le (by simp [List.length_drop]; omega)

/-- A successful run of the fuelled loop from a position below the end of
the text is described by a `Run` trace. -/
theorem go_run (text : List Char) (cs ov : Nat) :
    ∀ fuel s acc out, s < text.length →
      splitChunksGo text cs ov fuel s acc = some out →
      ∃ ps, Run text cs ov s ps ∧ out = acc ++ slicesOf text ps := by
  intro fuel
  induction fuel with
  | zero => intro s acc out _ h; exact absurd h (by simp [splitChunksGo])
  | succ n ih =>
    intro s acc out hlt h
    rw [splitChunksGo_succ, if_pos hlt] at h
    by_cases hend : text.length ≤ s + cs
    · rw [if_pos hend] at h
      refine ⟨[(s, text.length)], Run.final s hlt hend, ?_⟩
      have hout : out = acc ++ [text.drop s] := by
        cases h; rfl
      rw [hout]
      simp [slicesOf, sliceL_to_end (le_refl text.length)]
    · rw [if_neg hend] at h
      have hnext : findSplitPosition text s (s + cs) - ov < text.length := by
        have := findSplitPosition_le text s cs
        omega
      obtain ⟨ps, hrun, hout⟩ := ih _ _ _ hnext h
      refine ⟨(s, findSplitPosition text s (s + cs)) :: ps,
        Run.step s ps hlt hend hrun, ?_⟩
      rw [hout]
      simp [slicesOf]

/-- There is no finite trace from a cursor position that the loop maps to
itself (the loop would run forever). -/
theorem run_not_stuck (text : List Char) (cs ov : Nat) :
    ∀ (s : Nat) (ps : List (Nat × Nat)), Run text cs ov s ps →
      findSplitPosition text s (s + cs) - ov = s → s + cs < text.length → False := by
  intro s ps h
  induction h with
  | final s h1 h2 => intro _ hlen; omega
  | step s ps h1 h2 h3 ih =>
    intro hfix hlen
    rw [hfix] at ih
    exact ih hfix hlen

/-! ### Well-formedness of terminating traces -/

/-- Shape facts about a terminating trace starting at `s`: window starts
and ends grow strictly, each non-final window end is the next start plus
`ov`, every window spans at most `cs` characters, and the last window ends
at the end of the text. -/
def PairsOK (text : List Char) (cs ov : Nat) : Nat → List (Nat × Nat) → Prop
  | _, [] => False
  | s, [(a, b)] => a = s ∧ a < b ∧ b = text.length ∧ b - a ≤ cs
  | s, (a, b) :: (a', b') :: rest =>
      a = s ∧ a < b ∧ b < text.length ∧ b - a ≤ cs ∧
        a' + ov = b ∧ a < a' ∧ b < b' ∧ PairsOK text cs ov a' ((a', b') :: rest)

/-- Every terminating trace whose start is `0`, or is entered from a
previous window without cursor clamping, is well-formed.  This packages the
monotonicity argument: a non-advancing cursor would loop forever, and
`step_mono` rules out a left-moving split position. -/
theorem run_pairs (text : List Char) (cs ov : Nat) (hcs : 0 < cs) (hov : ov < cs) :
    ∀ s ps, Run text cs ov s ps →
      (s = 0 ∨ ∃ p, p < s ∧ p + cs < text.length ∧
        findSplitPosition text p (p + cs) = s + ov) →
      PairsOK text cs ov s ps := by
  intro s ps h
  induction h with
  | final s h1 h2 =>
    intro _
    exact ⟨rfl, by omega, rfl, by omega⟩
  | step s ps h1 h2 h3 ih =>
    intro hentry
    have hspgt : s < findSplitPosition text s (s + cs) :=
      findSplitPosition_gt text s cs hcs
    have hsple : findSplitPosition text s (s + cs) ≤ s + cs :=
      findSplitPosition_le text s cs
    have hnext_gt : s < findSplitPosition text s (s + cs) - ov := by
      rcases hentry with h0 | ⟨p, hpls, hplen, hpsplit⟩
      · subst h0
        by_contra hcon
        push_neg at hcon
        have hfix : findSplitPosition text 0 (0 + cs) - ov = 0 := by omega
        exact run_not_stuck text cs ov _ _ (hfix ▸ h3) hfix (by omega)
      · have hmono := step_mono text cs ov p s hov hplen (by omega) hpsplit hpls
        by_contra hcon
        push_neg at hcon
        have hfix : findSplitPosition text s (s + cs) - ov = s := by omega
        exact run_not_stuck text cs ov _ _ (hfix ▸ h3) hfix (by omega)
    have hovlt : ov < findSplitPosition text s (s + cs) := by omega
    have hpairs := ih (Or.inr ⟨s, hnext_gt, by omega, by omega⟩)
    cases ps with
    | nil => exact hpairs.elim
    | cons hd tl =>
      obtain ⟨a', b'⟩ := hd
      have hhead : a' = findSplitPosition text s (s + cs) - ov := by
        cases tl with
        | nil => exact hpairs.1
        | cons hd2 tl2 => exact hpairs.1
      have hb' : findSplitPosition text s (s + cs) < b' := by
        cases h3 with
        | final s2 hf1 hf2 => omega
        | step s2 ps2 hr1 hr2 hr3 =>
          have hmono2 := step_mono text cs ov s
            (findSplitPosition text s (s + cs) - ov) hov (by omega) (by omega)
            (by omega) hnext_gt
          by_contra hcon
          push_neg at hcon
          have hfix : findSplitPosition text
              (findSplitPosition text s (s + cs) - ov)
              ((findSplitPosition text s (s + cs) - ov) + cs) - ov =
              findSplitPosition text s (s + cs) - ov := by omega
          rw [hfix] at hr3
          exact run_not_stuck text cs ov _ _ hr3 hfix (by omega)
      rw [← hhead] at hpairs
      exact ⟨rfl, hspgt, by omega, by omega, by omega, by omega, hb', hpairs⟩

/-! ### Coverage, length bound and overlap equalities for the chunks -/

/-- "Removing the overlap regions": keep the first chunk whole and drop the
first `ov` characters of every later chunk, then concatenate in order. -/
def reconOv (ov : Nat) : List (List Char) → List Char
  | [] => []
  | t :: rest => t ++ (rest.map (List.drop ov)).flatten

theorem slicesOf_cons (text : List Char) (a b : Nat) (rest : List (Nat × Nat)) :
    slicesOf text ((a, b) :: rest) = sliceL text a b :: slicesOf text rest := rfl

theorem pairs_drop_join (text : List Char) (cs ov : Nat) :
    ∀ ps a, PairsOK text cs ov a ps →
      ((slicesOf text ps).map (List.drop ov)).flatten = text.drop (a + ov) := by
  intro ps
  induction ps with
  | nil => intro a hp; exact hp.elim
  | cons hd tl ih =>
    intro a hp
    obtain ⟨b1, b2⟩ := hd
    cases tl with
    | nil =>
      obtain ⟨ha, hab, hblen, hle⟩ := hp
      subst ha
      have hslice : sliceL text b1 b2 = text.drop b1 := sliceL_to_end (by omega)
      rw [slicesOf_cons]
      simp [slicesOf, hslice, List.drop_drop]
    | cons hd2 tl2 =>
      obtain ⟨a', b'⟩ := hd2
      obtain ⟨ha, hab, hblen, hle, hover, haa2, hbb2, hrest⟩ := hp
      subst ha
      have hih := ih a' hrest
      rw [slicesOf_cons, List.map_cons, List.flatten_cons, hih]
      have h1 : (sliceL text b1 b2).drop ov =
          (text.drop (b1 + ov)).take (b2 - (b1 + ov)) := by
        unfold sliceL
        rw [List.drop_take, List.drop_drop]
        congr 1
        omega
      have h2 : text.drop (a' + ov) = (text.drop (b1 + ov)).drop (b2 - (b1 + ov)) := by
        rw [List.drop_drop]
        congr 1
        omega
      rw [h1, h2, List.take_append_drop]

/-- The concatenation of the chunks of a well-formed trace from 0, with the
overlap regions removed, is the original text. -/
theorem pairs_recon (text : List Char) (cs ov : Nat) (ps : List (Nat × Nat))
    (hp : PairsOK text cs ov 0 ps) :
    reconOv ov (slicesOf text ps) = text := by
  cases ps with
  | nil => exact hp.elim
  | cons hd tl =>
    obtain ⟨a, b⟩ := hd
    cases tl with
    | nil =>
      obtain ⟨ha, hab, hblen, hle⟩ := hp
      subst ha hblen
      show sliceL text 0 text.length ++ _ = text
      simp [sliceL, reconOv]
    | cons hd2 tl2 =>
      obtain ⟨a', b'⟩ := hd2
      obtain ⟨ha, hab, hblen, hle, hover, haa2, hbb2, hrest⟩ := hp
      subst ha
      have hih := pairs_drop_join text cs ov _ _ hrest
      show sliceL text 0 b ++ ((slicesOf text ((a', b') :: tl2)).map (List.drop ov)).flatten = text
      rw [hih]
      have h1 : sliceL text 0 b = text.take b := by simp [sliceL]
      have h2 : text.drop (a' + ov) = text.drop b := by rw [hover]
      rw [h1, h2, List.take_append_drop]

theorem pairs_lengths (text : List Char) (cs ov : Nat) :
    ∀ ps a, PairsOK text cs ov a ps →
      ∀ t ∈ slicesOf text ps, t.length ≤ cs := by
  intro ps
  induction ps with
  | nil => intro a hp; exact hp.elim
  | cons hd tl ih =>
    intro a hp t ht
    obtain ⟨b1, b2⟩ := hd
    rw [slicesOf_cons] at ht
    rcases List.mem_cons.mp ht with ht | ht
    · subst ht
      rw [length_sliceL]
      cases tl with
      | nil => obtain ⟨_, _, _, hle⟩ := hp; omega
      | cons hd2 tl2 =>
        obtain ⟨a', b'⟩ := hd2
        obtain ⟨_, _, _, hle, _, _, _, _⟩ := hp
        omega
    · cases tl with
      | nil => simp [slicesOf] at ht
      | cons hd2 tl2 =>
        obtain ⟨a', b'⟩ := hd2
        obtain ⟨_, _, _, _, _, _, _, hrest⟩ := hp
        exact ih a' hrest t ht

/-- Consecutive chunks of a well-formed trace overlap by exactly `ov`
characters: the last `ov` characters of a chunk are the first `ov`
characters of its successor. -/
theorem pairs_chain (text : List Char) (cs ov : Nat) :
    ∀ ps a, PairsOK text cs ov a ps →
      List.Chain' (fun t t' => t.drop (t.length - ov) = t'.take ov)
        (slicesOf text ps) := by
  intro ps
  induction ps with
  | nil => intro a hp; exact hp.elim
  | cons hd tl ih =>
    intro a hp
    obtain ⟨b1, b2⟩ := hd
    cases tl with
    | nil => simp [slicesOf]
    | cons hd2 tl2 =>
      obtain ⟨a', b'⟩ := hd2
      obtain ⟨ha, hab, hblen, hle, hover, haa2, hbb2, hrest⟩ := hp
      rw [slicesOf_cons, slicesOf_cons]
      rw [List.chain'_cons]
      constructor
      · -- the overlap equality for one consecutive pair
        have hlen1 : (sliceL text b1 b2).length = b2 - b1 := by
          rw [length_sliceL]; omega
        have hovle : ov ≤ b2 - b1 := by omega
        have e1 : b1 + (b2 - b1 - ov) = b2 - ov := by omega
        have e2 : b2 - b1 - (b2 - b1 - ov) = ov := by omega
        have hL : (sliceL text b1 b2).drop ((sliceL text b1 b2).length - ov) =
            (text.drop (b2 - ov)).take ov := by
          rw [hlen1]
          unfold sliceL
          rw [List.drop_take, List.drop_drop, e1, e2]
        have hR : (sliceL text a' b').take ov = (text.drop (b2 - ov)).take ov := by
          unfold sliceL
          rw [List.take_take]
          have hmin : min ov (b' - a') = ov := by omega
          have e3 : a' = b2 - ov := by omega
          rw [hmin, e3]
        rw [hL, hR]
      · exact ih a' hrest

/-! ### Numbering of the chunks -/

theorem numberChunks_map_text (total : Nat) :
    ∀ i l, (numberChunks total i l).map ChunkInfo.text = l := by
  intro i l
  induction l generalizing i with
  | nil => rfl
  | cons c rest ih => simp [numberChunks, ih]

theorem numberChunks_map_part (total : Nat) :
    ∀ i l, (numberChunks total i l).map ChunkInfo.part_number =
      List.range' i l.length := by
  intro i l
  induction l generalizing i with
  | nil => rfl
  | cons c rest ih => simp [numberChunks, ih, List.range']

theorem numberChunks_length (total i : Nat) (l : List (List Char)) :
    (numberChunks total i l).length = l.length := by
  have := numberChunks_map_text total i l
  calc (numberChunks total i l).length
      = ((numberChunks total i l).map ChunkInfo.text).length := by simp
    _ = l.length := by rw [this]

/-- C2: for every text and every configuration satisfying the split
contract's preconditions (`max_chunk_size > 0`, `overlap < max_chunk_size`),
the chunks returned by `_split_into_chunks` cover the whole input: removing
the overlap regions (dropping the first `overlap` characters of every chunk
after the first) and concatenating the chunk texts in `part_number` order
reconstructs the original text exactly, every chunk's text length is at
most `max_chunk_size` (in particular every non-final chunk), and the chunks
are numbered `1..N` in order. -/
theorem C2_split_coverage (text : List Char) (cs ov fuel : Nat)
    (chunks : List ChunkInfo) (hcs : 0 < cs) (hov : ov < cs)
    (h : splitIntoChunks text cs ov fuel = some chunks) :
    reconOv ov (chunks.map ChunkInfo.text) = text ∧
      (∀ c ∈ chunks, c.text.length ≤ cs) ∧
      chunks.map ChunkInfo.part_number = List.range' 1 chunks.length := by
  unfold splitIntoChunks at h
  by_cases hshort : text.length ≤ cs
  · rw [if_pos hshort] at h
    cases h
    refine ⟨?_, ?_, ?_⟩
    · simp [reconOv]
    · intro c hc
      rcases List.mem_singleton.mp hc with rfl
      simpa using hshort
    · rfl
  · rw [if_neg hshort] at h
    obtain ⟨cks, hgo, hchunks⟩ := Option.map_eq_some'.mp h
    obtain ⟨ps, hrun, hout⟩ := go_run text cs ov fuel 0 [] cks (by omega) hgo
    rw [List.nil_append] at hout
    have hpairs := run_pairs text cs ov hcs hov 0 ps hrun (Or.inl rfl)
    have htext : chunks.map ChunkInfo.text = slicesOf text ps := by
      rw [← hchunks, numberChunks_map_text, hout]
    refine ⟨?_, ?_, ?_⟩
    · rw [htext]
      exact pairs_recon text cs ov ps hpairs
    · intro c hc
      have hmem : c.text ∈ slicesOf text ps := by
        rw [← htext]
        exact List.mem_map_of_mem ChunkInfo.text hc
      exact pairs_lengths text cs ov ps 0 hpairs c.text hmem
    · rw [← hchunks, numberChunks_map_part, numberChunks_length]

/-- Witness for `C2_split_coverage`: splitting fifteen `a`s with
`max_chunk_size = 10` and `overlap = 2` yields two chunks covering the
text. -/
theorem C2_split_coverage_witness :
    (0 < 10 ∧ 2 < 10 ∧
        splitIntoChunks "aaaaaaaaaaaaaaa".toList 10 2 5 =
          some [⟨"aaaaaaaaaa".toList, 1, 2⟩, ⟨"aaaaaaa".toList, 2, 2⟩]) ∧
      (reconOv 2
            (([⟨"aaaaaaaaaa".toList, 1, 2⟩,
               ⟨"aaaaaaa".toList, 2, 2⟩] : List ChunkInfo).map ChunkInfo.text) =
          "aaaaaaaaaaaaaaa".toList ∧
        (∀ c ∈ ([⟨"aaaaaaaaaa".toList, 1, 2⟩,
                 ⟨"aaaaaaa".toList, 2, 2⟩] : List ChunkInfo), c.text.length ≤ 10) ∧
        ([⟨"aaaaaaaaaa".toList, 1, 2⟩,
          ⟨"aaaaaaa".toList, 2, 2⟩] : List ChunkInfo).map ChunkInfo.part_number =
          List.range' 1 ([⟨"aaaaaaaaaa".toList, 1, 2⟩,
            ⟨"aaaaaaa".toList, 2, 2⟩] : List ChunkInfo).length) :=
  ⟨⟨by decide, by decide, by decide⟩,
    C2_split_coverage "aaaaaaaaaaaaaaa".toList 10 2 5 _
      (by decide) (by decide) (by decide)⟩

/-- C10 (implicit): for every split result, consecutive chunks overlap by
exactly `chunk_overlap` characters: the last `chunk_overlap` characters of
each non-final chunk equal the first `chunk_overlap` characters of its
successor.  (In every terminating run the cursor is never clamped at 0, so
the proviso of the claim — split position at least `chunk_overlap` — always
holds.) -/
theorem C10_chunk_overlap (text : List Char) (cs ov fuel : Nat)
    (chunks : List ChunkInfo) (hcs : 0 < cs) (hov : ov < cs)
    (h : splitIntoChunks text cs ov fuel = some chunks)
    (hmany : 2 ≤ chunks.length) :
    List.Chain' (fun t t' => t.drop (t.length - ov) = t'.take ov)
      (chunks.map ChunkInfo.text) := by
  unfold splitIntoChunks at h
  by_cases hshort : text.length ≤ cs
  · rw [if_pos hshort] at h
    cases h
    simp at hmany
  · rw [if_neg hshort] at h
    obtain ⟨cks, hgo, hchunks⟩ := Option.map_eq_some'.mp h
    obtain ⟨ps, hrun, hout⟩ := go_run text cs ov fuel 0 [] cks (by omega) hgo
    rw [List.nil_append] at hout
    have hpairs := run_pairs text cs ov hcs hov 0 ps hrun (Or.inl rfl)
    have htext : chunks.map ChunkInfo.text = slicesOf text ps := by
      rw [← hchunks, numberChunks_map_text, hout]
    rw [htext]
    exact pairs_chain text cs ov ps 0 hpairs

/-- Witness for `C10_chunk_overlap`: the two chunks of the fifteen-`a`
split share exactly two characters. -/
theorem C10_chunk_overlap_witness :
    (0 < 10 ∧ 2 < 10 ∧
        splitIntoChunks "aaaaaaaaaaaaaaa".toList 10 2 5 =
          some [⟨"aaaaaaaaaa".toList, 1, 2⟩, ⟨"aaaaaaa".toList, 2, 2⟩] ∧
        2 ≤ ([⟨"aaaaaaaaaa".toList, 1, 2⟩,
              ⟨"aaaaaaa".toList, 2, 2⟩] : List ChunkInfo).length) ∧
      List.Chain' (fun t t' => t.drop (t.length - 2) = t'.take 2)
        (([⟨"aaaaaaaaaa".toList, 1, 2⟩,
           ⟨"aaaaaaa".toList, 2, 2⟩] : List ChunkInfo).map ChunkInfo.text) :=
  ⟨⟨by decide, by decide, by decide, by decide⟩,
    C10_chunk_overlap "aaaaaaaaaaaaaaa".toList 10 2 5 _
      (by decide) (by decide) (by decide) (by decide)⟩

/-- C8: for every window `[start, e)` handed to `_find_split_position`, the
split position is determined only within the last fifth of the window
(`search_start = max(start, e - (e - start)/5)`): (i) the result depends
only on the zone slice `text[search_start:e]`; (ii) either no delimiter of
the preference list `["。", "\n\n", "\n", "、", ".", " "]` occurs in the
zone and the cut falls at the window edge `e`, or the first delimiter (in
that priority order) with an occurrence determines the cut at its rightmost
occurrence: the chunk ends immediately after that delimiter
(`search_start + pos + len(delimiter)`), not at the raw character cutoff. -/
theorem C8_boundary_search (text : List Char) (s e : Nat) :
    (∀ text2 : List Char,
        sliceL text2 (max s (e - (e - s) / 5)) e =
          sliceL text (max s (e - (e - s) / 5)) e →
        findSplitPosition text2 s e = findSplitPosition text s e) ∧
      ((∀ d ∈ delims, ∀ i, ¬OccursAt (sliceL text (max s (e - (e - s) / 5)) e) d i) ∧
          findSplitPosition text s e = e ∨
        ∃ k pos, k < delims.length ∧
          OccursAt (sliceL text (max s (e - (e - s) / 5)) e) (delims.getD k []) pos ∧
          (∀ j, pos < j →
            ¬OccursAt (sliceL text (max s (e - (e - s) / 5)) e) (delims.getD k []) j) ∧
          (∀ j, j < k → ∀ i,
            ¬OccursAt (sliceL text (max s (e - (e - s) / 5)) e) (delims.getD j []) i) ∧
          findSplitPosition text s e =
            max s (e - (e - s) / 5) + pos + (delims.getD k []).length) := by
  have hdef : ∀ t2 : List Char, findSplitPosition t2 s e =
      match tryDelims (sliceL t2 (max s (e - (e - s) / 5)) e)
          (max s (e - (e - s) / 5)) delims with
      | some p => p
      | none => e := fun _ => rfl
  constructor
  · intro t2 hseg
    rw [hdef t2, hdef text, hseg]
  · rw [hdef text]
    cases htd : tryDelims (sliceL text (max s (e - (e - s) / 5)) e)
        (max s (e - (e - s) / 5)) delims with
    | none =>
      left
      refine ⟨?_, rfl⟩
      intro d hd i
      exact rfind_none (delims_lengths d hd).1 (tryDelims_none htd d hd) i
    | some p =>
      right
      obtain ⟨k, pos, hk, hfind, hp, hprev⟩ := tryDelims_some htd
      obtain ⟨hne, hl2, hmem⟩ := delims_getD_facts k hk
      exact ⟨k, pos, hk, rfind_some hfind,
        fun j hj => rfind_max hne hfind j hj,
        fun j hjk i =>
          rfind_none (delims_getD_facts j (by omega)).1 (hprev j hjk) i,
        hp⟩

/-! ### Python values produced by `json.loads` -/

/-- A Python float as `json.loads` produces one.  A finite float is held as
the exact decimal value of its literal, `mant × 10^exp10`; the rounding of
that decimal to binary64 (and its overflow to infinity past ~1e308) is not
modelled.  `nan` and `inf` are the `NaN`/`Infinity`/`-Infinity` constants
Python's decoder accepts. -/
inductive PyFloat where
  | finite (mant : Int) (exp10 : Int)
  | nan
  | inf (neg : Bool)
  deriving Repr, BEq

/-- JSON values as produced by Python's `json.loads`.  The number grammar
separates ints from floats exactly as Python does: a fraction or an
exponent part makes the value a float. -/
inductive Json where
  | null
  | bool (b : Bool)
  | int (n : Int)
  | float (f : PyFloat)
  | str (s : String)
  | arr (items : List Json)
  | obj (fields : List (String × Json))
  deriving Repr, BEq

/-- Python whitespace, as `str.strip()` and `str.isspace()` classify it:
the ASCII whitespace characters, the separator controls U+001C-U+001F, and
the Unicode space characters (U+0085, U+00A0, U+1680, U+2000-U+200A,
U+2028, U+2029, U+202F, U+205F, and the ideographic space U+3000). -/
def isPySpace (c : Char) : Bool :=
  c == ' ' || c == '\t' || c == '\n' || c == '\r' || c == '\x0b' || c == '\x0c' ||
    c == '\x1c' || c == '\x1d' || c == '\x1e' || c == '\x1f' || c == '\x85' ||
    c == '\xa0' || c == '\u1680' || ('\u2000' ≤ c && c ≤ '\u200a') ||
    c == '\u2028' || c == '\u2029' || c == '\u202f' || c == '\u205f' || c == '\u3000'

/-- Python `str.strip()` on a character list. -/
def pyStrip (l : List Char) : List Char :=
  ((l.dropWhile isPySpace).reverse.dropWhile isPySpace).reverse

/-- Python `str.strip()` on a string. -/
def pyStripS (s : String) : String :=
  String.mk (pyStrip s.toList)

/-- Python `s[:n]` on a string. -/
def pyTake (n : Nat) (s : String) : String :=
  String.mk (s.toList.take n)

/-- JSON whitespace (as accepted by `json.loads`). -/
def isJsonWs (c : Char) : Bool :=
  c == ' ' || c == '\t' || c == '\n' || c == '\r'

def skipWs (l : List Char) : List Char := l.dropWhile isJsonWs

def hexVal (c : Char) : Option Nat :=
  if '0' ≤ c ∧ c ≤ '9' then some (c.toNat - '0'.toNat)
  else if 'a' ≤ c ∧ c ≤ 'f' then some (c.toNat - 'a'.toNat + 10)
  else if 'A' ≤ c ∧ c ≤ 'F' then some (c.toNat - 'A'.toNat + 10)
  else none

/-- Body of a JSON string literal (after the opening quote), as a list of
UTF-16 code units/code points: one per plain character or escape.  As in
Python's strict decoder, an unescaped control character below U+0020 is an
error. -/
def parseStrRaw : List Nat → List Char → Option (List Nat × List Char)
  | _, [] => none
  | acc, '"' :: rest => some (acc.reverse, rest)
  | acc, '\\' :: '"' :: r => parseStrRaw (0x22 :: acc) r
  | acc, '\\' :: '\\' :: r => parseStrRaw (0x5c :: acc) r
  | acc, '\\' :: '/' :: r => parseStrRaw (0x2f :: acc) r
  | acc, '\\' :: 'n' :: r => parseStrRaw (0x0a :: acc) r
  | acc, '\\' :: 't' :: r => parseStrRaw (0x09 :: acc) r
  | acc, '\\' :: 'r' :: r => parseStrRaw (0x0d :: acc) r
  | acc, '\\' :: 'b' :: r => parseStrRaw (0x08 :: acc) r
  | acc, '\\' :: 'f' :: r => parseStrRaw (0x0c :: acc) r
  | acc, '\\' :: 'u' :: h1 :: h2 :: h3 :: h4 :: r =>
    match hexVal h1, hexVal h2, hexVal h3, hexVal h4 with
    | some a, some b, some c, some d =>
      parseStrRaw ((((a * 16 + b) * 16 + c) * 16 + d) :: acc) r
    | _, _, _, _ => none
  | _, '\\' :: _ => none
  | acc, c :: rest =>
    if c.toNat < 0x20 then none else parseStrRaw (c.toNat :: acc) rest

/-- Combine UTF-16 surrogate pairs from `\u` escapes into their astral
code points, as Python's decoder does.  A lone surrogate — which Python
keeps as a surrogate code unit, a value a Lean `Char` cannot hold — is
modelled as U+FFFD. -/
def combineSurrogates : Nat → List Nat → List Char
  | 0, _ => []
  | _, [] => []
  | fuel + 1, n :: rest =>
    if 0xD800 ≤ n ∧ n ≤ 0xDBFF then
      match rest with
      | m :: rest2 =>
        if 0xDC00 ≤ m ∧ m ≤ 0xDFFF then
          Char.ofNat (0x10000 + (n - 0xD800) * 0x400 + (m - 0xDC00)) ::
            combineSurrogates fuel rest2
        else '\uFFFD' :: combineSurrogates fuel rest
      | [] => ['\uFFFD']
    else if 0xDC00 ≤ n ∧ n ≤ 0xDFFF then '\uFFFD' :: combineSurrogates fuel rest
    else Char.ofNat n :: combineSurrogates fuel rest

/-- A JSON string literal body (after the opening quote). -/
def parseStrBody (l : List Char) : Option (String × List Char) :=
  (parseStrRaw [] l).map fun nr =>
    (String.mk (combineSurrogates nr.1.length nr.1), nr.2)

def digitsToNat (ds : List Char) : Nat :=
  ds.foldl (fun n c => n * 10 + (c.toNat - '0'.toNat)) 0

/-- Decimal value `mant × 10^exp10` as a `PyFloat`. -/
def floatOf (mant : Int) (exp10 : Int) : Json :=
  .float (.finite mant exp10)

/-- The optional exponent part of a JSON number (after the digits of the
integer and fraction parts).  A present exponent — like a present
fraction — makes the value a float, as in Python. -/
def parseExpTail (mant : Int) (e10 : Int) (isFloat : Bool) (l : List Char) :
    Option (Json × List Char) :=
  match l with
  | 'e' :: rest => parseExpDigits mant e10 rest
  | 'E' :: rest => parseExpDigits mant e10 rest
  | _ =>
    if isFloat then some (floatOf mant e10, l)
    else some (.int mant, l)
where
  parseExpDigits (mant : Int) (e10 : Int) (l : List Char) :
      Option (Json × List Char) :=
    let signed : Int × List Char :=
      match l with
      | '+' :: r => (1, r)
      | '-' :: r => (-1, r)
      | _ => (1, l)
    let ds := signed.2.takeWhile Char.isDigit
    if ds = [] then none
    else some (floatOf mant (e10 + signed.1 * (digitsToNat ds : Int)),
      signed.2.dropWhile Char.isDigit)

/-- The optional fraction part of a JSON number, after the integer part
`ip`. -/
def parseNumTail (ip : Nat) : List Char → Option (Json × List Char)
  | '.' :: rest =>
    let fds := rest.takeWhile Char.isDigit
    if fds = [] then none
    else
      parseExpTail ((ip * 10 ^ fds.length + digitsToNat fds : Nat) : Int)
        (-(fds.length : Int)) true (rest.dropWhile Char.isDigit)
  | l => parseExpTail (ip : Int) 0 false l

/-- A nonnegative JSON number: `0`, or a digit run without a leading zero
(as in Python's decoder, `01` is not a number literal), then optional
fraction and exponent parts. -/
def parseNumAbs : List Char → Option (Json × List Char)
  | '0' :: rest => parseNumTail 0 rest
  | l =>
    let ds := l.takeWhile Char.isDigit
    if ds = [] then none
    else parseNumTail (digitsToNat ds) (l.dropWhile Char.isDigit)

/-- Negation of a parsed number value (for a leading `-`). -/
def jsonNegNum : Json → Json
  | .int n => .int (-n)
  | .float (.finite m e) => .float (.finite (-m) e)
  | j => j

mutual

/-- Recursive-descent JSON value parser (fuel-bounded; the fuel is
proportional to the input length, which bounds the nesting depth). -/
def parseVal : Nat → List Char → Option (Json × List Char)
  | 0, _ => none
  | fuel + 1, input =>
    match skipWs input with
    | 'n' :: 'u' :: 'l' :: 'l' :: rest => some (.null, rest)
    | 't' :: 'r' :: 'u' :: 'e' :: rest => some (.bool true, rest)
    | 'f' :: 'a' :: 'l' :: 's' :: 'e' :: rest => some (.bool false, rest)
    | '"' :: rest => (parseStrBody rest).map fun sr => (.str sr.1, sr.2)
    | '[' :: rest =>
      match skipWs rest with
      | ']' :: r => some (.arr [], r)
      | _ => parseElems fuel rest []
    | '\x7b' :: rest =>
      match skipWs rest with
      | '\x7d' :: r => some (.obj [], r)
      | _ => parseMembers fuel rest []
    | 'N' :: 'a' :: 'N' :: rest => some (.float .nan, rest)
    | 'I' :: 'n' :: 'f' :: 'i' :: 'n' :: 'i' :: 't' :: 'y' :: rest =>
      some (.float (.inf false), rest)
    | '-' :: 'I' :: 'n' :: 'f' :: 'i' :: 'n' :: 'i' :: 't' :: 'y' :: rest =>
      some (.float (.inf true), rest)
    | '-' :: rest => (parseNumAbs rest).map fun vr => (jsonNegNum vr.1, vr.2)
    | l => parseNumAbs l

/-- Comma-separated array elements, after `[`. -/
def parseElems : Nat → List Char → List Json → Option (Json × List Char)
  | 0, _, _ => none
  | fuel + 1, input, acc =>
    match parseVal fuel input with
    | none => none
    | some (v, r) =>
      match skipWs r with
      | ',' :: r2 => parseElems fuel r2 (acc ++ [v])
      | ']' :: r2 => some (.arr (acc ++ [v]), r2)
      | _ => none

/-- Comma-separated object members, after the opening brace. -/
def parseMembers : Nat → List Char → List (String × Json) → Option (Json × List Char)
  | 0, _, _ => none
  | fuel + 1, input, acc =>
    match skipWs input with
    | '"' :: r =>
      match parseStrBody r with
      | none => none
      | some (key, r2) =>
        match skipWs r2 with
        | ':' :: r3 =>
          match parseVal fuel r3 with
          | none => none
          | some (v, r4) =>
            match skipWs r4 with
            | ',' :: r5 => parseMembers fuel r5 (acc ++ [(key, v)])
            | '\x7d' :: r5 => some (.obj (acc ++ [(key, v)]), r5)
            | _ => none
        | _ => none
    | _ => none

end

/-- Model of Python `json.loads`: parse one JSON value and require that
only whitespace follows.  The grammar is Python's: ints and floats are
separated (a fraction or exponent makes a float), `NaN`/`Infinity` are
accepted, leading-zero integers and unescaped control characters in
strings are rejected.  Finite floats keep the exact decimal of their
literal (binary64 rounding and overflow are not modelled), and lone
surrogates in `\u` escapes become U+FFFD (see `parseStrBody`). -/
def jsonLoads (l : List Char) : Option Json :=
  match parseVal (2 * l.length + 4) l with
  | some (v, rest) => if skipWs rest = [] then some v else none
  | none => none

example : jsonLoads "null".toList = some .null := rfl
example : jsonLoads "  [1, \"a\", -2]  ".toList = some (.arr [.int 1, .str "a", .int (-2)]) := rfl
example :
    jsonLoads "\x7b\"a\": 1, \"b\": [true]\x7d".toList =
      some (.obj [("a", .int 1), ("b", .arr [.bool true])]) := rfl
example : jsonLoads "hello".toList = none := rfl
example : jsonLoads "\x7b\"a\": 1".toList = none := rfl
example :
    jsonLoads "\x7b\"title\": \"t\", \"x\": 1.5\x7d".toList =
      some (.obj [("title", .str "t"), ("x", .float (.finite 15 (-1)))]) := rfl
example : jsonLoads "[1e2, -2.50]".toList =
    some (.arr [.float (.finite 1 2), .float (.finite (-250) (-2))]) := rfl
example : jsonLoads "01".toList = none := rfl
example : jsonLoads "[01]".toList = none := rfl
example : jsonLoads "NaN".toList = some (.float .nan) := rfl
example : jsonLoads "-Infinity".toList = some (.float (.inf true)) := rfl
example : jsonLoads "\"a\x01b\"".toList = none := rfl
example : jsonLoads "\"\\uD83D\\uDE00\"".toList = some (.str "😀") := rfl
example : pyStrip "\u3000hi\u3000".toList = "hi".toList := rfl
example : pyStrip "\u3000\u3000".toList = [] := rfl

/-! ### Python builtins used by the response parser -/

/-- Smallest `k < fuel`, counting up from `k0`, with `den ∣ 10^k`. -/
def findPow10 (den : Nat) : Nat → Nat → Option Nat
  | 0, _ => none
  | fuel + 1, k => if 10 ^ k % den = 0 then some k else findPow10 den fuel (k + 1)

/-- Python `str()`/`repr()` of a float.  Finite values render as their
plain decimal with trailing zeros trimmed (`12.5`, `1000.0`); Python's
switch to exponent notation for very small or large magnitudes, and its
shortest-roundtrip rounding of binary64, are not modelled. -/
def pyFloatStr : PyFloat → String
  | .nan => "nan"
  | .inf true => "-inf"
  | .inf false => "inf"
  | .finite m e =>
    if 0 ≤ e then toString (m * 10 ^ e.toNat) ++ ".0"
    else
      let k := (-e).toNat
      let n := m.natAbs
      let ip := n / 10 ^ k
      let fracDigits := Nat.toDigits 10 (n % 10 ^ k)
      let padded := List.replicate (k - fracDigits.length) '0' ++ fracDigits
      let trimmed := (padded.reverse.dropWhile (· = '0')).reverse
      (if m < 0 then "-" else "") ++ toString ip ++ "." ++
        (if trimmed = [] then "0" else String.mk trimmed)

mutual

/-- Python `repr()` on JSON-shaped values (strings are rendered with
single quotes; escaping inside strings is not modelled). -/
def pyRepr : Json → String
  | .null => "None"
  | .bool true => "True"
  | .bool false => "False"
  | .int n => toString n
  | .float f => pyFloatStr f
  | .str s => "\x27" ++ s ++ "\x27"
  | .arr l => "[" ++ String.intercalate ", " (pyReprList l) ++ "]"
  | .obj fs => "\x7b" ++ String.intercalate ", " (pyReprFields fs) ++ "\x7d"

def pyReprList : List Json → List String
  | [] => []
  | j :: rest => pyRepr j :: pyReprList rest

def pyReprFields : List (String × Json) → List String
  | [] => []
  | (k, v) :: rest => ("\x27" ++ k ++ "\x27: " ++ pyRepr v) :: pyReprFields rest

end

/-- Python `str()` on JSON-shaped values. -/
def pyStr : Json → String
  | .str s => s
  | j => pyRepr j

/-- First code points of the runs of ten decimal digits (Unicode category
`Nd`) that Python's `int()` accepts, for the ASCII digits and the `Nd`
blocks of the Basic Multilingual Plane (the fullwidth digits U+FF10-U+FF19
included); the rarer astral-plane digit blocks are outside the model. -/
def ndStarts : List Nat :=
  [0x30, 0x660, 0x6F0, 0x7C0, 0x966, 0x9E6, 0xA66, 0xAE6, 0xB66, 0xBE6,
    0xC66, 0xCE6, 0xD66, 0xDE6, 0xE50, 0xED0, 0xF20, 0x1040, 0x1090, 0x17E0,
    0x1810, 0x1946, 0x19D0, 0x1A80, 0x1A90, 0x1B50, 0x1BB0, 0x1C40, 0x1C50,
    0xA620, 0xA8D0, 0xA900, 0xA9D0, 0xA9F0, 0xAA50, 0xABF0, 0xFF10]

/-- The decimal value of a character, for the digits `int()` accepts. -/
def pyDigitVal (c : Char) : Option Nat :=
  ndStarts.findSome? fun s0 =>
    if s0 ≤ c.toNat ∧ c.toNat ≤ s0 + 9 then some (c.toNat - s0) else none

/-- A digit run as `int()` reads one: decimal digits with single
underscores allowed between digits (PEP 515). -/
def pyDigitsVal : Nat → List Char → Option Nat
  | acc, [] => some acc
  | acc, '_' :: c :: rest =>
    match pyDigitVal c with
    | some d => pyDigitsVal (acc * 10 + d) rest
    | none => none
  | acc, c :: rest =>
    match pyDigitVal c with
    | some d => pyDigitsVal (acc * 10 + d) rest
    | none => none

/-- Python `int(s)` on a string: optional surrounding whitespace (the full
Python whitespace set), an optional sign, then a nonempty digit run —
Unicode decimal digits, with single underscores between digits; anything
else raises `ValueError`. -/
def pyIntOfStr (s : String) : Option Int :=
  match pyStrip s.toList with
  | '-' :: c :: ds =>
    (pyDigitVal c).bind fun d => (pyDigitsVal d ds).map fun n => -(n : Int)
  | '+' :: c :: ds =>
    (pyDigitVal c).bind fun d => (pyDigitsVal d ds).map fun n => (n : Int)
  | c :: ds =>
    (pyDigitVal c).bind fun d => (pyDigitsVal d ds).map fun n => (n : Int)
  | [] => none

/-- Python exceptions that `_parse_summary_response` can raise
(`OverflowError` comes from `int()` on an infinite float). -/
inductive PyExn
  | valueError
  | typeError
  | attributeError
  | overflowError
  deriving Repr, DecidableEq

/-- `dict.get(key)`: JSON objects become Python dicts, where a repeated key
keeps its last value. -/
def jGet (fields : List (String × Json)) (key : String) : Option Json :=
  ((fields.filter fun kv => kv.1 == key).getLast?).map fun kv => kv.2

/-- `dict.get(key, default)`. -/
def jGetD (fields : List (String × Json)) (key : String) (dflt : Json) : Json :=
  (jGet fields key).getD dflt

/-- Python `for item in x`: lists iterate elements, strings iterate
characters, dicts iterate keys; other values raise `TypeError`. -/
def pyIter : Json → Except PyExn (List Json)
  | .arr l => .ok l
  | .str s => .ok (s.toList.map fun c => .str (String.mk [c]))
  | .obj fields => .ok (fields.map fun kv => .str kv.1)
  | _ => .error .typeError

/-- `isinstance(x, int)` (true for Python bools as well). -/
def jIsInt : Json → Bool
  | .int _ => true
  | .bool _ => true
  | _ => false

/-- Truncation of a finite float toward zero, as Python `int(float)`
does: `int(12.5) = 12`, `int(-12.5) = -12`. -/
def pyFloatTrunc (m e : Int) : Int :=
  if 0 ≤ e then m * 10 ^ e.toNat else m.tdiv (10 ^ (-e).toNat)

/-- Python `int(x)` for the values reachable in the key-point coercion:
numeric strings convert, other strings raise `ValueError`, finite floats
truncate toward zero, `nan` raises `ValueError` and infinities raise
`OverflowError`, containers and `None` raise `TypeError`; ints and bools
pass through as their int value. -/
def pyIntCoerce : Json → Except PyExn Json
  | .str s =>
    match pyIntOfStr s with
    | some n => .ok (.int n)
    | none => .error .valueError
  | .int n => .ok (.int n)
  | .bool b => .ok (.int (if b then 1 else 0))
  | .float (.finite m e) => .ok (.int (pyFloatTrunc m e))
  | .float .nan => .error .valueError
  | .float (.inf _) => .error .overflowError
  | .arr _ => .error .typeError
  | .obj _ => .error .typeError
  | .null => .error .typeError

example : pyIntOfStr "  12  " = some 12 := rfl
example : pyIntOfStr "\u3000１２\u3000" = some 12 := rfl
example : pyIntOfStr "1_000" = some 1000 := rfl
example : pyIntOfStr "1__0" = none := rfl
example : pyIntOfStr "_1" = none := rfl
example : pyIntOfStr "abc" = none := rfl
example : pyIntCoerce (.float (.finite 125 (-1))) = .ok (.int 12) := rfl
example : pyIntCoerce (.float (.finite (-125) (-1))) = .ok (.int (-12)) := rfl
example : pyFloatStr (.finite 15 (-1)) = "1.5" := rfl
example : pyFloatStr (.finite 1 3) = "1000.0" := rfl
example : pyFloatStr (.finite (-150) (-2)) = "-1.5" := rfl

/-- A key point: `KeyPointItem` dataclass (fields hold Python values). -/
structure KeyPointItem where
  text : Json
  start_seconds : Json
  deriving Repr, BEq

/-- `SummaryResult` dataclass. -/
structure SummaryResult where
  title : Json
  summary : Json
  key_points : List KeyPointItem
  topics : Json
  chunk_count : Nat
  model : String
  deriving Repr, BEq

/-- The body of the `for item in raw_kps` loop of
`_parse_summary_response`: `sec` is coerced with `int(sec)` exactly when it
is neither `None` nor an `int` (Python bools count as ints). -/
def coerceKeyPoint : Json → Except PyExn KeyPointItem
  | .str s => .ok ⟨.str s, .null⟩
  | .obj fields =>
    let text_val := jGetD fields "text" (.str "")
    match jGetD fields "start_seconds" .null with
    | .null => .ok ⟨text_val, .null⟩
    | .int n => .ok ⟨text_val, .int n⟩
    | .bool b => .ok ⟨text_val, .bool b⟩
    | sec =>
      match pyIntCoerce sec with
      | .ok sec2 => .ok ⟨text_val, sec2⟩
      | .error e => .error e
  | item => .ok ⟨.str (pyStr item), .null⟩

/-- Python `text.split("\n")` on a character list. -/
def splitLines : List Char → List Char → List (List Char)
  | acc, [] => [acc.reverse]
  | acc, '\n' :: rest => acc.reverse :: splitLines [] rest
  | acc, c :: rest => splitLines (c :: acc) rest

/-- Python `"\n".join(lines)` on character lists. -/
def joinLines (ls : List (List Char)) : List Char :=
  (List.intersperse ['\n'] ls).flatten

/-- `text.startswith("```")`. -/
def startsWithTicks : List Char → Bool
  | '`' :: '`' :: '`' :: _ => true
  | _ => false

/-- The code-fence stripping step of `_parse_summary_response`: if the
trimmed text starts with three backticks, drop the first line and every
remaining line that itself starts (after trimming) with three backticks. -/
def stripFence (text : List Char) : List Char :=
  if startsWithTicks text then
    joinLines (((splitLines [] text).drop 1).filter fun l => !startsWithTicks (pyStrip l))
  else text

/-- The degraded-result key point text used on parse failure. -/
def fallbackKeyPointText : String :=
  "要約結果のパースに失敗しました。生テキストを確認してください。"

/-- `SummarizerService._parse_summary_response(raw, chunk_count)`.
`Except.error` is a raised Python exception. -/
def parseSummaryResponse (raw : String) (chunk_count : Nat) :
    Except PyExn SummaryResult :=
  match jsonLoads (stripFence (pyStrip raw.toList)) with
  | none =>
    .ok ⟨.str "要約の生成に部分的に成功", .str (pyTake 500 raw),
      [⟨.str fallbackKeyPointText, .null⟩], .arr [], chunk_count, MODEL_ID⟩
  | some data =>
    match data with
    | .obj fields =>
      match pyIter (jGetD fields "key_points" (.arr [])) with
      | .error e => .error e
      | .ok items =>
        match items.mapM coerceKeyPoint with
        | .error e => .error e
        | .ok kps =>
          .ok ⟨jGetD fields "title" (.str "タイトル不明"),
            jGetD fields "summary" (.str ""), kps,
            jGetD fields "topics" (.arr []), chunk_count, MODEL_ID⟩
    | _ => .error .attributeError

example :
    parseSummaryResponse "\x7b\"key_points\": [\"a\", \x7b\"text\": \"b\", \"start_seconds\": \"12\"\x7d]\x7d" 1 =
      .ok ⟨.str "タイトル不明", .str "", [⟨.str "a", .null⟩, ⟨.str "b", .int 12⟩],
        .arr [], 1, MODEL_ID⟩ := rfl

example :
    parseSummaryResponse "\x7b\"key_points\": [\x7b\"text\": \"b\", \"start_seconds\": \"abc\"\x7d]\x7d" 1 =
      .error .valueError := rfl

example : parseSummaryResponse "5" 1 = .error .attributeError := rfl

example :
    parseSummaryResponse "not json at all" 2 =
      .ok ⟨.str "要約の生成に部分的に成功", .str "not json at all",
        [⟨.str fallbackKeyPointText, .null⟩], .arr [], 2, MODEL_ID⟩ := rfl

example :
    stripFence "```json\n\x7b\"a\": 1\x7d\n```".toList = "\x7b\"a\": 1\x7d".toList := rfl

/-- C1 (code bug): the Response Parser does **not** never-raise.  On the
syntactically valid JSON input
`{"key_points": [{"text": "b", "start_seconds": "abc"}]}` — whose
`start_seconds` is a non-numeric string — `_parse_summary_response` reaches
`int(sec)`, which raises `ValueError`; only `json.JSONDecodeError` is
caught, so the exception escapes instead of a degraded `SummaryResult`
being returned. -/
theorem C1_parse_raises_on_bad_seconds :
    parseSummaryResponse
        "\x7b\"key_points\": [\x7b\"text\": \"b\", \"start_seconds\": \"abc\"\x7d]\x7d" 1 =
      .error .valueError := rfl

/-- C7: for every input string whose body (after trimming and
fence-stripping) is not valid JSON, `parse` returns — without raising — a
degraded `SummaryResult`: title indicating partial success, summary equal
to the first 500 characters of the raw (untrimmed) output, exactly one key
point, empty topics, and the given `chunk_count`. -/
theorem C7_parse_fallback (raw : String) (cc : Nat)
    (h : jsonLoads (stripFence (pyStrip raw.toList)) = none) :
    parseSummaryResponse raw cc =
      .ok ⟨.str "要約の生成に部分的に成功", .str (pyTake 500 raw),
        [⟨.str fallbackKeyPointText, .null⟩], .arr [], cc, MODEL_ID⟩ := by
  unfold parseSummaryResponse
  rw [h]

/-- Witness for `C7_parse_fallback` at a concrete non-JSON input. -/
theorem C7_parse_fallback_witness :
    jsonLoads (stripFence (pyStrip "not json at all".toList)) = none ∧
      parseSummaryResponse "not json at all" 2 =
        .ok ⟨.str "要約の生成に部分的に成功", .str (pyTake 500 "not json at all"),
          [⟨.str fallbackKeyPointText, .null⟩], .arr [], 2, MODEL_ID⟩ :=
  ⟨rfl, C7_parse_fallback "not json at all" 2 rfl⟩

/-- C9 counterexample: the claim says a present, non-integer
`start_seconds` is "coerced to an integer", but on the key-point object
`{"text": "b", "start_seconds": "abc"}` the loop body reaches `int("abc")`
and raises `ValueError` instead of producing a coerced key point (the same
slip recorded under C1). -/
theorem C9_coercion_counterexample :
    coerceKeyPoint (.obj [("text", .str "b"), ("start_seconds", .str "abc")]) =
      .error .valueError := rfl

/-- C9 (amended): on successfully JSON-parsed model output each
`key_points` entry is coerced per its shape: a bare string becomes
`{text, start_seconds: null}`; an object keeps its text (default empty
string), a null/absent `start_seconds` stays null, an integer stays, and
any other present value is passed to `int()` — a numeric string converts
to its integer, a finite float truncates toward zero, while a value
`int()` rejects (a non-numeric string; a list) raises
`ValueError`/`TypeError` instead of being coerced; any other entry is
stringified into `text` with null `start_seconds`; and on parse success
`key_points` is exactly the list of coerced entries — in particular
`{"key_points": ["a", {"text": "b", "start_seconds": "12"}]}` yields
`[{text: "a", start_seconds: null}, {text: "b", start_seconds: 12}]`. -/
theorem C9_keypoint_coercion :
    (∀ s : String, coerceKeyPoint (.str s) = .ok ⟨.str s, .null⟩) ∧
      (∀ fields, jGetD fields "start_seconds" .null = .null →
        coerceKeyPoint (.obj fields) = .ok ⟨jGetD fields "text" (.str ""), .null⟩) ∧
      (∀ fields n, jGetD fields "start_seconds" .null = .int n →
        coerceKeyPoint (.obj fields) = .ok ⟨jGetD fields "text" (.str ""), .int n⟩) ∧
      (∀ fields s n, jGetD fields "start_seconds" .null = .str s →
        pyIntOfStr s = some n →
        coerceKeyPoint (.obj fields) = .ok ⟨jGetD fields "text" (.str ""), .int n⟩) ∧
      (∀ fields s, jGetD fields "start_seconds" .null = .str s →
        pyIntOfStr s = none →
        coerceKeyPoint (.obj fields) = .error .valueError) ∧
      (∀ fields m e, jGetD fields "start_seconds" .null = .float (.finite m e) →
        coerceKeyPoint (.obj fields) =
          .ok ⟨jGetD fields "text" (.str ""), .int (pyFloatTrunc m e)⟩) ∧
      (∀ fields l, jGetD fields "start_seconds" .null = .arr l →
        coerceKeyPoint (.obj fields) = .error .typeError) ∧
      (∀ j : Json, (∀ s, j ≠ .str s) → (∀ fields, j ≠ .obj fields) →
        coerceKeyPoint j = .ok ⟨.str (pyStr j), .null⟩) ∧
      (∀ (raw : String) (cc : Nat) fields items kps,
        jsonLoads (stripFence (pyStrip raw.toList)) = some (.obj fields) →
        pyIter (jGetD fields "key_points" (.arr [])) = .ok items →
        items.mapM coerceKeyPoint = .ok kps →
        parseSummaryResponse raw cc =
          .ok ⟨jGetD fields "title" (.str "タイトル不明"),
            jGetD fields "summary" (.str ""), kps,
            jGetD fields "topics" (.arr []), cc, MODEL_ID⟩) ∧
      parseSummaryResponse
          "\x7b\"key_points\": [\"a\", \x7b\"text\": \"b\", \"start_seconds\": \"12\"\x7d]\x7d" 1 =
        .ok ⟨.str "タイトル不明", .str "", [⟨.str "a", .null⟩, ⟨.str "b", .int 12⟩],
          .arr [], 1, MODEL_ID⟩ := by
  refine ⟨fun s => rfl, ?_, ?_, ?_, ?_, ?_, ?_, ?_, ?_, rfl⟩
  · intro fields h
    simp only [coerceKeyPoint, h]
  · intro fields n h
    simp only [coerceKeyPoint, h]
  · intro fields s n h1 h2
    simp only [coerceKeyPoint, h1, pyIntCoerce, h2]
  · intro fields s h1 h2
    simp only [coerceKeyPoint, h1, pyIntCoerce, h2]
  · intro fields m e h
    simp only [coerceKeyPoint, h, pyIntCoerce]
  · intro fields l h
    simp only [coerceKeyPoint, h, pyIntCoerce]
  · intro j h1 h2
    cases j with
    | str s => exact absurd rfl (h1 s)
    | obj fields => exact absurd rfl (h2 fields)
    | null => rfl
    | bool b => rfl
    | int n => rfl
    | float f => rfl
    | arr l => rfl
  · intro raw cc fields items kps h1 h2 h3
    unfold parseSummaryResponse
    rw [h1]
    simp only [h2, h3]

/-! ### Prompt templates (Python `.format` modelled by concatenation) -/

/-- `CHUNK_SUMMARY_PROMPT.format(...)`. -/
def CHUNK_SUMMARY_PROMPT (video_title : String) (part_number total_parts : Nat)
    (chunk : String) : String :=
  "あなたはYouTube動画の字幕テキストを要約する専門家です。\n動画のタイトル（参考）: "
    ++ video_title
    ++ "\n\n以下は動画の字幕テキストの一部(パート " ++ toString part_number
    ++ "/" ++ toString total_parts
    ++ ")です。\n\n<transcript_chunk>\n" ++ chunk ++ "\n</transcript_chunk>\n\n"
    ++ "このパートの内容を以下の形式で要約してください:\n"
    ++ "- 主要なポイントを箇条書きで3〜5個抽出\n"
    ++ "- 各ポイントは1〜2文で簡潔に、具体的に記述する（「いろいろ」「さまざま」などの曖昧表現は避ける）\n"
    ++ "- 字幕に書かれている事実・発言に基づき、推測や一般論を混ぜない\n"
    ++ "- 専門用語はそのまま残す\n\n出力は箇条書きのみにしてください。"

/-- `FINAL_SUMMARY_PROMPT.format(...)` (the `{{`/`}}` escapes of the
template render as literal braces). -/
def FINAL_SUMMARY_PROMPT (video_title partial_summaries : String) : String :=
  "あなたはYouTube動画の字幕テキストを要約する専門家です。\n動画のタイトル（参考）: "
    ++ video_title
    ++ "\n\n以下は動画全体の字幕テキストから抽出した各パートの要約です。\n\n<partial_summaries>\n"
    ++ partial_summaries
    ++ "\n</partial_summaries>\n\n"
    ++ "上記の部分要約を統合し、以下のJSON形式で最終的な要約を生成してください。\n"
    ++ "JSONのみを出力し、それ以外のテキストは含めないでください。\n\n"
    ++ "\x7b\n  \"title\": \"動画の内容を端的に表す日本語タイトル(20文字以内)\",\n"
    ++ "  \"summary\": \"動画全体の概要を3〜5文で記述した要約文\",\n"
    ++ "  \"key_points\": [\n"
    ++ "    \x7b \"text\": \"重要ポイント1\", \"start_seconds\": null \x7d,\n"
    ++ "    \x7b \"text\": \"重要ポイント2\", \"start_seconds\": null \x7d\n"
    ++ "  ],\n  \"topics\": [\"トピック1\", \"トピック2\"]\n\x7d\n\n"
    ++ "注意:\n- title は動画の核心を捉えた簡潔なものにする\n"
    ++ "- summary は動画を見ていない人にも内容が伝わるように、具体的に書く。曖昧な表現は避ける\n"
    ++ "- key_points は3〜7個。各要素は \x7b \"text\": \"1文で簡潔に、内容が分かるように\", \"start_seconds\": null \x7d(部分要約からは時刻が出ないため null)\n"
    ++ "- topics は動画の主題を表すキーワードを2〜5個。抽象的な単語より、動画で扱っている具体的な語を使う"

/-- `SHORT_TEXT_PROMPT.format(...)`. -/
def SHORT_TEXT_PROMPT (video_title transcript : String) : String :=
  "あなたはYouTube動画の字幕テキストを要約する専門家です。\n動画のタイトル（参考）: "
    ++ video_title
    ++ "\n\n以下は動画の字幕テキスト全文です。各行は [秒数] の後にその時刻の字幕が続きます。\n\n<transcript>\n"
    ++ transcript
    ++ "\n</transcript>\n\n"
    ++ "上記の字幕テキストから、以下のJSON形式で要約を生成してください。\n"
    ++ "JSONのみを出力し、それ以外のテキストは含めないでください。\n\n"
    ++ "\x7b\n  \"title\": \"動画の内容を端的に表す日本語タイトル(20文字以内)\",\n"
    ++ "  \"summary\": \"動画全体の概要を3〜5文で記述した要約文\",\n"
    ++ "  \"key_points\": [\n"
    ++ "    \x7b \"text\": \"重要ポイント1\", \"start_seconds\": 該当する [秒数] の整数 \x7d,\n"
    ++ "    \x7b \"text\": \"重要ポイント2\", \"start_seconds\": 該当する [秒数] の整数 \x7d\n"
    ++ "  ],\n  \"topics\": [\"トピック1\", \"トピック2\"]\n\x7d\n\n"
    ++ "注意:\n- title は動画の核心を捉えた簡潔なものにする\n"
    ++ "- summary は動画を見ていない人にも内容が伝わるように、具体的に書く。曖昧な表現は避ける\n"
    ++ "- key_points は3〜7個。各要素は \x7b \"text\": \"1文で簡潔に、内容が分かるように\", \"start_seconds\": そのポイントが話されている箇所の [秒数] の整数 \x7d。該当する秒数が分からない場合は null\n"
    ++ "- topics は動画の主題を表すキーワードを2〜5個。抽象的な単語より、動画で扱っている具体的な語を使う"

/-! ### The orchestrator (`summarize_transcript`) -/

/-- Errors of the orchestrator: the empty-transcript `ValueError`
(`EmptyInput` in the spec's taxonomy) or a Python exception escaping the
parser. -/
inductive SummErr
  | emptyInput
  | pyErr (e : PyExn)
  deriving Repr, BEq

/-- `(video_title or "").strip() or "（取得していません）"`. -/
def titleHint (video_title : Option String) : String :=
  if pyStripS (video_title.getD "") = "" then "（取得していません）"
  else pyStripS (video_title.getD "")

/-- The completion calls are modelled by an oracle: `oracle k` is the raw
text returned by the `k`-th call (in call order). -/
def summarizeShort (oracle : Nat → String) (k : Nat) (transcript video_title : String) :
    Except PyExn SummaryResult × List String :=
  (parseSummaryResponse (oracle k) 1, [SHORT_TEXT_PROMPT video_title transcript])

/-- The `for chunk in chunks` loop of `_summarize_long`: returns the
labelled partial summaries and the prompts issued, with `k` the index of
the next completion call. -/
def summarizeLongGo (oracle : Nat → String) (video_title : String) :
    List ChunkInfo → Nat → List String × List String
  | [], _ => ([], [])
  | c :: rest, k =>
    (("【パート " ++ toString c.part_number ++ "】\n" ++ oracle k)
        :: (summarizeLongGo oracle video_title rest (k + 1)).1,
      CHUNK_SUMMARY_PROMPT video_title c.part_number c.total_parts (String.mk c.text)
        :: (summarizeLongGo oracle video_title rest (k + 1)).2)

/-- `SummarizerService._summarize_long` (with `k0` the index of the first
completion call). -/
def summarizeLong (oracle : Nat → String) (k0 : Nat) (chunks : List ChunkInfo)
    (video_title : String) : Except PyExn SummaryResult × List String :=
  (parseSummaryResponse (oracle (k0 + chunks.length)) chunks.length,
    (summarizeLongGo oracle video_title chunks k0).2 ++
      [FINAL_SUMMARY_PROMPT video_title
        (String.intercalate "\n\n" (summarizeLongGo oracle video_title chunks k0).1)])

/-- `SummarizerService.summarize_transcript`: returns the outcome together
with the list of prompts issued to the completion service, in call order.
`none` means the split loop ran out of fuel (did not terminate). -/
def summarizeTranscript (oracle : Nat → String) (cs ov fuel : Nat)
    (transcript : List Char) (video_title : Option String) :
    Option (Except SummErr SummaryResult × List String) :=
  if pyStrip transcript = [] then some (.error .emptyInput, [])
  else
    match splitIntoChunks (pyStrip transcript) cs ov fuel with
    | none => none
    | some chunks =>
      if chunks.length = 1 then
        some ((summarizeShort oracle 0 (String.mk (pyStrip transcript))
            (titleHint video_title)).1.mapError .pyErr,
          (summarizeShort oracle 0 (String.mk (pyStrip transcript))
            (titleHint video_title)).2)
      else
        some ((summarizeLong oracle 0 chunks (titleHint video_title)).1.mapError .pyErr,
          (summarizeLong oracle 0 chunks (titleHint video_title)).2)

/-- Closed form of the chunk loop: partial summaries pair the oracle
outputs with the chunks in order, prompts are one chunk prompt per chunk. -/
theorem summarizeLongGo_eq (oracle : Nat → String) (title : String) :
    ∀ (chunks : List ChunkInfo) (k : Nat),
      summarizeLongGo oracle title chunks k =
        (((List.range' k chunks.length).zip chunks).map fun ic =>
            "【パート " ++ toString ic.2.part_number ++ "】\n" ++ oracle ic.1,
          chunks.map fun c =>
            CHUNK_SUMMARY_PROMPT title c.part_number c.total_parts (String.mk c.text)) := by
  intro chunks
  induction chunks with
  | nil => intro k; rfl
  | cons c rest ih =>
    intro k
    have hr : List.range' k (rest.length + 1) = k :: List.range' (k + 1) rest.length := rfl
    simp [summarizeLongGo, ih (k + 1), hr]

/-- `summarize_transcript` after a successful split: path selection on the
number of chunks. -/
theorem summarizeTranscript_some (oracle : Nat → String) (cs ov fuel : Nat)
    (t : List Char) (vt : Option String) (chunks : List ChunkInfo)
    (hne : pyStrip t ≠ [])
    (hsplit : splitIntoChunks (pyStrip t) cs ov fuel = some chunks) :
    summarizeTranscript oracle cs ov fuel t vt =
      if chunks.length = 1 then
        some ((summarizeShort oracle 0 (String.mk (pyStrip t))
            (titleHint vt)).1.mapError .pyErr,
          (summarizeShort oracle 0 (String.mk (pyStrip t)) (titleHint vt)).2)
      else
        some ((summarizeLong oracle 0 chunks (titleHint vt)).1.mapError .pyErr,
          (summarizeLong oracle 0 chunks (titleHint vt)).2) := by
  unfold summarizeTranscript
  rw [if_neg hne, hsplit]

/-- C4: if the split of the (stripped) transcript yields exactly one chunk,
`summarize_transcript` makes exactly one completion call, with the short
prompt over the full stripped transcript; if it yields `N > 1` chunks, it
makes exactly `N + 1` calls: one chunk prompt per chunk, issued in list
(= ascending `part_number`) order, followed by one merge call whose prompt
contains the `N` raw chunk outputs labelled `【パート i】` and concatenated
in part-number order, joined by blank lines. -/
theorem C4_call_counts (oracle : Nat → String) (cs ov fuel : Nat) (t : List Char)
    (vt : Option String) (chunks : List ChunkInfo)
    (hne : pyStrip t ≠ [])
    (hsplit : splitIntoChunks (pyStrip t) cs ov fuel = some chunks) :
    (chunks.length = 1 →
      ∃ res, summarizeTranscript oracle cs ov fuel t vt =
        some (res, [SHORT_TEXT_PROMPT (titleHint vt) (String.mk (pyStrip t))])) ∧
      (chunks.length ≠ 1 →
        ∃ res tr, summarizeTranscript oracle cs ov fuel t vt = some (res, tr) ∧
          tr = (chunks.map fun c =>
              CHUNK_SUMMARY_PROMPT (titleHint vt) c.part_number c.total_parts
                (String.mk c.text)) ++
            [FINAL_SUMMARY_PROMPT (titleHint vt)
              (String.intercalate "\n\n"
                (((List.range' 0 chunks.length).zip chunks).map fun ic =>
                  "【パート " ++ toString ic.2.part_number ++ "】\n" ++ oracle ic.1))] ∧
          tr.length = chunks.length + 1) := by
  constructor
  · intro hlen
    refine ⟨(summarizeShort oracle 0 (String.mk (pyStrip t)) (titleHint vt)).1.mapError .pyErr, ?_⟩
    rw [summarizeTranscript_some oracle cs ov fuel t vt chunks hne hsplit, if_pos hlen]
    rfl
  · intro hlen
    refine ⟨(summarizeLong oracle 0 chunks (titleHint vt)).1.mapError .pyErr,
      (summarizeLong oracle 0 chunks (titleHint vt)).2, ?_, ?_, ?_⟩
    · rw [summarizeTranscript_some oracle cs ov fuel t vt chunks hne hsplit, if_neg hlen]
    · unfold summarizeLong
      rw [summarizeLongGo_eq]
    · unfold summarizeLong
      rw [summarizeLongGo_eq]
      simp

/-- Witness for `C4_call_counts`: a short transcript produces exactly the
one short prompt. -/
theorem C4_call_counts_witness :
    ∃ res, summarizeTranscript (fun _ => "output") 10 2 5 "hello".toList none =
      some (res, [SHORT_TEXT_PROMPT (titleHint none) (String.mk (pyStrip "hello".toList))]) :=
  (C4_call_counts (fun _ => "output") 10 2 5 "hello".toList none
      [⟨"hello".toList, 1, 1⟩] (by decide) (by decide)).1 rfl

/-- C6: a transcript that is empty after trimming fails with the
empty-input error before any completion call is made (the prompt trace is
empty); a transcript that is non-blank after trimming never produces that
error. -/
theorem C6_empty_input (oracle : Nat → String) (cs ov fuel : Nat) (t : List Char)
    (vt : Option String) :
    (pyStrip t = [] →
      summarizeTranscript oracle cs ov fuel t vt = some (.error .emptyInput, [])) ∧
      (pyStrip t ≠ [] → ∀ res tr,
        summarizeTranscript oracle cs ov fuel t vt = some (res, tr) →
        res ≠ .error .emptyInput) := by
  constructor
  · intro h
    unfold summarizeTranscript
    rw [if_pos h]
  · intro h res tr heq hcon
    cases hsplit : splitIntoChunks (pyStrip t) cs ov fuel with
    | none =>
      unfold summarizeTranscript at heq
      rw [if_neg h, hsplit] at heq
      exact Option.noConfusion heq
    | some chunks =>
      rw [summarizeTranscript_some oracle cs ov fuel t vt chunks h hsplit] at heq
      by_cases hlen : chunks.length = 1
      · rw [if_pos hlen] at heq
        have h1 := congrArg Prod.fst (Option.some.inj heq)
        rw [hcon] at h1
        cases hx : (summarizeShort oracle 0 (String.mk (pyStrip t)) (titleHint vt)).1 with
        | ok v => rw [hx] at h1; simp [Except.mapError] at h1
        | error e => rw [hx] at h1; simp [Except.mapError] at h1
      · rw [if_neg hlen] at heq
        have h1 := congrArg Prod.fst (Option.some.inj heq)
        rw [hcon] at h1
        cases hx : (summarizeLong oracle 0 chunks (titleHint vt)).1 with
        | ok v => rw [hx] at h1; simp [Except.mapError] at h1
        | error e => rw [hx] at h1; simp [Except.mapError] at h1

/-! ### C5: `start_seconds` in the map-reduce path -/

theorem mapM_except_mem {α β ε : Type} (f : α → Except ε β) :
    ∀ (l : List α) (out : List β), l.mapM f = .ok out →
      ∀ b ∈ out, ∃ a ∈ l, f a = .ok b := by
  intro l
  induction l with
  | nil =>
    intro out h b hb
    simp only [List.mapM_nil] at h
    cases h
    simp at hb
  | cons a rest ih =>
    intro out h b hb
    simp only [List.mapM_cons] at h
    cases hfa : f a with
    | error e => rw [hfa] at h; simp [Bind.bind, Except.bind] at h
    | ok b0 =>
      rw [hfa] at h
      cases hrest : rest.mapM f with
      | error e => rw [hrest] at h; simp [Bind.bind, Except.bind, Pure.pure] at h
      | ok bs =>
        rw [hrest] at h
        simp [Bind.bind, Except.bind, Pure.pure, Except.pure] at h
        subst h
        rcases List.mem_cons.mp hb with rfl | hmem
        · exact ⟨a, List.mem_cons_self a rest, hfa⟩
        · obtain ⟨a2, ha2, hfa2⟩ := ih bs hrest b hmem
          exact ⟨a2, List.mem_cons_of_mem a ha2, hfa2⟩

/-- If every key-point entry of the parsed JSON that is an object carries a
null (or absent) `start_seconds`, then every key point of the parse result
has null `start_seconds` (the fallback result also satisfies this). -/
theorem parse_null_seconds (raw : String) (cc : Nat) (r : SummaryResult)
    (h : parseSummaryResponse raw cc = .ok r)
    (hnull : ∀ fields, jsonLoads (stripFence (pyStrip raw.toList)) = some (.obj fields) →
      ∀ items, pyIter (jGetD fields "key_points" (.arr [])) = .ok items →
        ∀ j ∈ items, ∀ gfields, j = Json.obj gfields →
          jGetD gfields "start_seconds" .null = .null) :
    ∀ kp ∈ r.key_points, kp.start_seconds = .null := by
  intro kp hkp
  unfold parseSummaryResponse at h
  cases hjs : jsonLoads (stripFence (pyStrip raw.toList)) with
  | none =>
    rw [hjs] at h
    cases h
    rcases List.mem_singleton.mp hkp with rfl
    rfl
  | some data =>
    rw [hjs] at h
    cases data with
    | null => exact Except.noConfusion h
    | bool b => exact Except.noConfusion h
    | int n => exact Except.noConfusion h
    | float f => exact Except.noConfusion h
    | str s => exact Except.noConfusion h
    | arr l => exact Except.noConfusion h
    | obj fields =>
      replace h : (match pyIter (jGetD fields "key_points" (Json.arr [])) with
          | Except.error e => (Except.error e : Except PyExn SummaryResult)
          | Except.ok items =>
            match items.mapM coerceKeyPoint with
            | Except.error e => Except.error e
            | Except.ok kps =>
              Except.ok (⟨jGetD fields "title" (Json.str "タイトル不明"),
                jGetD fields "summary" (Json.str ""), kps,
                jGetD fields "topics" (Json.arr []), cc, MODEL_ID⟩ : SummaryResult)) =
          Except.ok r := h
      cases hit : pyIter (jGetD fields "key_points" (.arr [])) with
      | error e => rw [hit] at h; exact Except.noConfusion h
      | ok items =>
        rw [hit] at h
        replace h : (match items.mapM coerceKeyPoint with
            | Except.error e => (Except.error e : Except PyExn SummaryResult)
            | Except.ok kps =>
              Except.ok (⟨jGetD fields "title" (Json.str "タイトル不明"),
                jGetD fields "summary" (Json.str ""), kps,
                jGetD fields "topics" (Json.arr []), cc, MODEL_ID⟩ : SummaryResult)) =
            Except.ok r := h
        cases hmap : items.mapM coerceKeyPoint with
        | error e => rw [hmap] at h; exact Except.noConfusion h
        | ok kps =>
          rw [hmap] at h
          cases h
          obtain ⟨j, hj, hcoerce⟩ := mapM_except_mem coerceKeyPoint items kps hmap kp hkp
          cases j with
          | str s =>
            have hkpv := Except.ok.inj hcoerce
            rw [← hkpv]
          | obj gfields =>
            have hsec := hnull fields hjs items hit _ hj gfields rfl
            simp only [coerceKeyPoint, hsec] at hcoerce
            have hkpv := Except.ok.inj hcoerce
            rw [← hkpv]
          | null =>
            have hkpv := Except.ok.inj hcoerce
            rw [← hkpv]
          | bool b =>
            have hkpv := Except.ok.inj hcoerce
            rw [← hkpv]
          | int n =>
            have hkpv := Except.ok.inj hcoerce
            rw [← hkpv]
          | float f =>
            have hkpv := Except.ok.inj hcoerce
            rw [← hkpv]
          | arr l =>
            have hkpv := Except.ok.inj hcoerce
            rw [← hkpv]

/-- Projection used to state the C5 counterexample: the `chunk_count` and
the `start_seconds` of each key point of a successful outcome. -/
def resultSeconds (x : Option (Except SummErr SummaryResult × List String)) :
    Option (Nat × List Json) :=
  match x with
  | some (.ok r, _) => some (r.chunk_count, r.key_points.map KeyPointItem.start_seconds)
  | _ => none

/-- C5 counterexample: a transcript of fifteen characters with
`chunk_size = 10`, `overlap = 2` takes the map-reduce path (two chunks,
`chunk_count = 2`), and when the merge completion output is
`{"key_points": [{"text": "x", "start_seconds": 7}]}` the returned
`SummaryResult` carries `start_seconds = 7`, not null: the parser does not
force `start_seconds` to null in the map-reduce path. -/
theorem C5_counterexample :
    resultSeconds (summarizeTranscript
        (fun k => if k = 2
          then "\x7b\"key_points\": [\x7b\"text\": \"x\", \"start_seconds\": 7\x7d]\x7d"
          else "bullet")
        10 2 20 "aaaaaaaaaaaaaaa".toList none) = some (2, [Json.int 7]) := rfl

/-- C5 (amended): for every transcript on the map-reduce path, **provided**
every key-point entry of the merge output's JSON is a string, or an object
whose `start_seconds` is absent or null (which is what the merge prompt
instructs the model to emit), every `KeyPoint` in the returned
`SummaryResult` has `start_seconds` null.  The code itself does not force
null: see the counterexample for a merge output carrying a number. -/
theorem C5_merge_null_seconds (oracle : Nat → String) (cs ov fuel : Nat)
    (t : List Char) (vt : Option String) (chunks : List ChunkInfo)
    (r : SummaryResult) (tr : List String)
    (hne : pyStrip t ≠ [])
    (hsplit : splitIntoChunks (pyStrip t) cs ov fuel = some chunks)
    (hmany : chunks.length ≠ 1)
    (hrun : summarizeTranscript oracle cs ov fuel t vt = some (.ok r, tr))
    (hnull : ∀ fields,
      jsonLoads (stripFence (pyStrip (oracle (0 + chunks.length)).toList)) =
        some (.obj fields) →
      ∀ items, pyIter (jGetD fields "key_points" (.arr [])) = .ok items →
        ∀ j ∈ items, ∀ gfields, j = Json.obj gfields →
          jGetD gfields "start_seconds" .null = .null) :
    ∀ kp ∈ r.key_points, kp.start_seconds = .null := by
  rw [summarizeTranscript_some oracle cs ov fuel t vt chunks hne hsplit,
    if_neg hmany] at hrun
  have h1 := congrArg Prod.fst (Option.some.inj hrun)
  simp only [summarizeLong] at h1
  cases hp : parseSummaryResponse (oracle (0 + chunks.length)) chunks.length with
  | error e => rw [hp] at h1; simp [Except.mapError] at h1
  | ok r0 =>
    rw [hp] at h1
    simp only [Except.mapError] at h1
    have hr : r0 = r := Except.ok.inj h1
    subst hr
    exact parse_null_seconds _ _ _ hp hnull

/-- Witness for `C5_merge_null_seconds`: a two-chunk run whose merge output
is `{"key_points": ["x"]}` yields a single key point with null seconds. -/
theorem C5_merge_null_seconds_witness :
    (⟨Json.str "x", Json.null⟩ : KeyPointItem).start_seconds = Json.null :=
  C5_merge_null_seconds
    (fun k => if k = 2 then "\x7b\"key_points\": [\"x\"]\x7d" else "bullet")
    10 2 20 "aaaaaaaaaaaaaaa".toList none
    [⟨"aaaaaaaaaa".toList, 1, 2⟩, ⟨"aaaaaaa".toList, 2, 2⟩]
    ⟨.str "タイトル不明", .str "", [⟨.str "x", .null⟩], .arr [], 2, MODEL_ID⟩
    _ (by decide) (by decide) (by decide) rfl
    (by
      intro fields hf items hit j hj gfields hg
      have h1 : Json.obj [("key_points", Json.arr [Json.str "x"])] = Json.obj fields :=
        Option.some.inj hf
      have h2 : fields = [("key_points", Json.arr [Json.str "x"])] := (Json.obj.inj h1).symm
      subst h2
      have h3 : [Json.str "x"] = items := Except.ok.inj hit
      subst h3
      rcases List.mem_singleton.mp hj with rfl
      exact absurd hg (by simp))
    ⟨Json.str "x", Json.null⟩ (List.mem_singleton.mpr rfl)

end Summarizer
